import Mathlib

/-!
# Verification of the floor-plan analysis pipeline

Shallow embedding, over exact rational arithmetic, of the image-analysis
pipeline of the 3dmodel_gen repository (`src/utils/computerVision.ts`,
`src/utils/lineClassifier.ts`, `src/utils/scaleCalibrator.ts`,
`src/utils/textFilterEngine.ts`, `src/utils/universalProcessor.ts`).

Modelling conventions, applied uniformly:

* JavaScript `number` is modelled by `ℚ` (exact arithmetic; IEEE-754 rounding
  and `Uint8ClampedArray` byte quantisation are below the abstraction level
  of the verified statements, and every concrete run used in a theorem is
  chosen so that the exact values coincide with the floating-point ones).
* The transcendental library functions `Math.sqrt`, `Math.exp` and
  `Math.atan2` have no exact counterpart on `ℚ`; the embedded definitions
  take them as explicit function parameters.  Universal theorems assume only
  the properties of these functions they need (so they hold in particular
  for the true real-valued functions); concrete runs instantiate them with
  rational stand-ins that agree with the true functions on every argument
  actually evaluated in that run (e.g. `sqrtModel` on perfect squares).
* Pixel buffers (`Uint8ClampedArray`/`ImageData.data`) are modelled as total
  functions `ℕ → ℚ`; every read performed by the embedded code corresponds
  to an in-bounds read of the source.
* 2-dimensional `boolean[][]` visited arrays are modelled as bit sets
  (a `ℕ` used as a bitmask, bit `y*width + x`).
* `while` loops whose bodies push work onto an explicit stack are embedded
  as fuel-indexed recursion; the fuel is either a parameter of the theorem
  or is instantiated with a bound that provably exceeds the iteration count
  of the concrete run, and loop results are `Option`-valued where the source
  loop can diverge (Douglas-Peucker with a negative tolerance).
* Mutable class state and external effects (OCR, TensorFlow, canvas, the
  result cache) are modelled by explicit state passing and by `Except`-valued
  oracle parameters for the external calls.
-/

-- Batteries marks the rational-number operations `@[irreducible]`, which
-- blocks elaborator-side evaluation (`decide`); restore the default so that
-- concrete runs of the embedded pipeline can be evaluated.  The kernel's
-- behaviour is unchanged by reducibility attributes.
attribute [local semireducible] Rat.add Rat.mul Rat.inv Rat.sub Rat.ofScientific

set_option maxRecDepth 10000

/-- Fuel-indexed binary search for the floor square root: finds the largest
`k ∈ [lo, hi]` with `k * k ≤ n` (assuming `lo * lo ≤ n`). -/
def natSqrtGo (n : ℕ) : ℕ → ℕ → ℕ → ℕ
  | 0, lo, _ => lo
  | fuel + 1, lo, hi =>
    let mid := (lo + hi + 1) / 2
    if mid * mid ≤ n then natSqrtGo n fuel mid hi else natSqrtGo n fuel lo (mid - 1)

/-- Kernel-computable floor square root on ℕ: the largest `k` with
`k * k ≤ n`. -/
def natSqrt (n : ℕ) : ℕ := natSqrtGo n 128 0 n

/-- Rational stand-in for `Math.sqrt`: floor square root of the (reduced)
numerator over the floor square root of the denominator, mirroring the
square root on ℚ provided by Mathlib but reducible by the kernel.  It
returns the exact square root on every rational whose reduced numerator and
denominator are perfect squares — which covers every argument `Math.sqrt`
is applied to in the concrete runs appearing in the theorems below. -/
def sqrtModel (q : ℚ) : ℚ := (natSqrt q.num.toNat : ℚ) / (natSqrt q.den : ℚ)

/-- A 2-D point with rational coordinates (`Point` of computerVision.ts). -/
structure Point where
  x : ℚ
  y : ℚ
deriving DecidableEq

namespace computerVision

/-- A pixel buffer: index (row-major RGBA byte index) to value. -/
def Buf : Type := ℕ → ℚ

/-- Distance from `point` to the segment `lineStart`-`lineEnd`
(`pointToLineDistance` of computerVision.ts).  `sqrtQ` models `Math.sqrt`. -/
def pointToLineDistance (sqrtQ : ℚ → ℚ) (point lineStart lineEnd : Point) : ℚ :=
  let A := point.x - lineStart.x
  let B := point.y - lineStart.y
  let C := lineEnd.x - lineStart.x
  let D := lineEnd.y - lineStart.y
  let dot := A * C + B * D
  let lenSq := C * C + D * D
  if lenSq = 0 then sqrtQ (A * A + B * B)
  else
    let param := dot / lenSq
    let xx := if param < 0 then lineStart.x
              else if param > 1 then lineEnd.x
              else lineStart.x + param * C
    let yy := if param < 0 then lineStart.y
              else if param > 1 then lineEnd.y
              else lineStart.y + param * D
    let dx := point.x - xx
    let dy := point.y - yy
    sqrtQ (dx * dx + dy * dy)

/-- One `while` iteration state of `simplifyContour`: explicit interval stack
(head = top of the JS array) and the `simplified` output accumulator.
Returns `none` when the fuel runs out (the source loop diverges for negative
tolerances; with tolerance ≥ 0 a fuel of `2 * contour.length + 2` suffices). -/
def simplifyLoop (sqrtQ : ℚ → ℚ) (contour : List Point) (tolerance : ℚ) :
    ℕ → List (ℕ × ℕ) → List Point → Option (List Point)
  | _, [], simplified => some simplified
  | 0, _ :: _, _ => none
  | fuel + 1, (s, e) :: rest, simplified =>
    let md := (List.range' (s + 1) (e - s - 1)).foldl
      (fun acc i =>
        let dist := pointToLineDistance sqrtQ (contour.getD i ⟨0, 0⟩)
          (contour.getD s ⟨0, 0⟩) (contour.getD e ⟨0, 0⟩)
        if dist > acc.1 then (dist, i) else acc) ((0 : ℚ), s)
    if md.1 > tolerance then
      simplifyLoop sqrtQ contour tolerance fuel ((md.2, e) :: (s, md.2) :: rest) simplified
    else
      simplifyLoop sqrtQ contour tolerance fuel rest
        (simplified ++ contour.getD s ⟨0, 0⟩ ::
          (if s ≠ e then [contour.getD e ⟨0, 0⟩] else []))

/-- `simplifyContour` of computerVision.ts (stack-based Douglas-Peucker). -/
def simplifyContour (sqrtQ : ℚ → ℚ) (contour : List Point) (tolerance : ℚ)
    (fuel : ℕ) : Option (List Point) :=
  if contour.length ≤ 2 then some contour
  else simplifyLoop sqrtQ contour tolerance fuel [(0, contour.length - 1)] []

end computerVision

namespace scaleCalibrator

/-- Supported measurement units (`Unit` enum of scaleCalibrator.ts). -/
inductive Unit where
  | millimeter
  | centimeter
  | meter
  | inch
  | foot
  | yard
deriving DecidableEq

/-- `UNIT_TO_METERS` of scaleCalibrator.ts. -/
def UNIT_TO_METERS : Unit → ℚ
  | Unit.millimeter => 0.001
  | Unit.centimeter => 0.01
  | Unit.meter => 1
  | Unit.inch => 0.0254
  | Unit.foot => 0.3048
  | Unit.yard => 0.9144

/-- `convertUnit` of scaleCalibrator.ts. -/
def convertUnit (value : ℚ) (fromUnit toUnit : Unit) : ℚ :=
  if fromUnit = toUnit then value
  else value * UNIT_TO_METERS fromUnit / UNIT_TO_METERS toUnit

theorem UNIT_TO_METERS_pos (u : Unit) : 0 < UNIT_TO_METERS u := by
  cases u <;> norm_num [UNIT_TO_METERS]

end scaleCalibrator

/-- C7: unit round-trip conversion is exact (hence within the claimed 1e-6):
for every value `v` and supported units `A`, `B`,
`|convertUnit (convertUnit v A B) B A - v| ≤ 1e-6`
(in exact rational arithmetic the difference is 0). -/
theorem convertUnit_roundtrip (v : ℚ) (A B : scaleCalibrator.Unit) :
    |scaleCalibrator.convertUnit (scaleCalibrator.convertUnit v A B) B A - v|
      ≤ 1 / 1000000 := by
  have hA := scaleCalibrator.UNIT_TO_METERS_pos A
  have hB := scaleCalibrator.UNIT_TO_METERS_pos B
  unfold scaleCalibrator.convertUnit
  by_cases h : A = B
  · simp [h]
  · have h' : B ≠ A := fun he => h he.symm
    rw [if_neg h, if_neg h']
    have : v * scaleCalibrator.UNIT_TO_METERS A / scaleCalibrator.UNIT_TO_METERS B *
        scaleCalibrator.UNIT_TO_METERS B / scaleCalibrator.UNIT_TO_METERS A - v = 0 := by
      field_simp
    rw [this]
    norm_num

/-- The distance from a point lying on the segment `a`-`b` (at parameter
`t ∈ [0,1]`) to that segment is 0, for any model of `Math.sqrt` that is
zero at zero. -/
theorem pointToLineDistance_eq_zero (sqrtQ : ℚ → ℚ) (hs : sqrtQ 0 = 0)
    (a b p : Point) (t : ℚ) (ht0 : 0 ≤ t) (ht1 : t ≤ 1)
    (hx : p.x = a.x + t * (b.x - a.x)) (hy : p.y = a.y + t * (b.y - a.y)) :
    computerVision.pointToLineDistance sqrtQ p a b = 0 := by
  simp only [computerVision.pointToLineDistance]
  by_cases h0 : (b.x - a.x) * (b.x - a.x) + (b.y - a.y) * (b.y - a.y) = 0
  · rw [if_pos h0]
    have hC : b.x - a.x = 0 := by nlinarith [sq_nonneg (b.x - a.x), sq_nonneg (b.y - a.y)]
    have hD : b.y - a.y = 0 := by nlinarith [sq_nonneg (b.x - a.x), sq_nonneg (b.y - a.y)]
    have hA : p.x - a.x = 0 := by rw [hx, hC]; ring
    have hB : p.y - a.y = 0 := by rw [hy, hD]; ring
    rw [hA, hB]
    simpa using hs
  · rw [if_neg h0]
    have hdot : (p.x - a.x) * (b.x - a.x) + (p.y - a.y) * (b.y - a.y)
        = t * ((b.x - a.x) * (b.x - a.x) + (b.y - a.y) * (b.y - a.y)) := by
      rw [hx, hy]; ring
    have hparam : ((p.x - a.x) * (b.x - a.x) + (p.y - a.y) * (b.y - a.y)) /
        ((b.x - a.x) * (b.x - a.x) + (b.y - a.y) * (b.y - a.y)) = t := by
      rw [hdot]
      exact mul_div_cancel_right₀ t h0
    rw [hparam, if_neg (not_lt.mpr ht0), if_neg (not_lt.mpr ht1),
      if_neg (not_lt.mpr ht0), if_neg (not_lt.mpr ht1)]
    have hdx : p.x - (a.x + t * (b.x - a.x)) = 0 := by rw [hx]; ring
    have hdy : p.y - (a.y + t * (b.y - a.y)) = 0 := by rw [hy]; ring
    rw [hdx, hdy]
    simpa using hs

/-- A max-distance scan over indices whose distances are all zero never moves
off its initial accumulator. -/
theorem foldl_maxdist_zero (f : ℕ → ℚ) (l : List ℕ) (s : ℕ)
    (h : ∀ i ∈ l, f i = 0) :
    l.foldl (fun acc i => if f i > acc.1 then (f i, i) else acc) ((0 : ℚ), s)
      = (0, s) := by
  induction l with
  | nil => rfl
  | cons a l ih =>
    simp only [List.foldl]
    rw [h a (by simp)]
    simp only [gt_iff_lt, lt_self_iff_false, if_false]
    exact ih fun i hi => h i (List.mem_cons_of_mem a hi)

/-- C2 counterexample: Douglas-Peucker simplification (`simplifyContour`) is
not idempotent.  On the contour `[(0,0), (3,4), (6,0)]` with tolerance 1 the
first pass yields `[(3,4), (6,0), (0,0), (3,4)]` (the stack-based variant
emits segment endpoints in LIFO order, duplicating shared vertices) and a
second pass with the same tolerance yields a different, longer list.  Every
`Math.sqrt` argument in both runs is a perfect rational square (16, 25,
576/25), so `sqrtModel` computes the exact values the source computes. -/
theorem simplifyContour_not_idempotent :
    computerVision.simplifyContour sqrtModel
        [⟨0, 0⟩, ⟨3, 4⟩, ⟨6, 0⟩] 1 30
      = some [⟨3, 4⟩, ⟨6, 0⟩, ⟨0, 0⟩, ⟨3, 4⟩]
    ∧ computerVision.simplifyContour sqrtModel
        [⟨3, 4⟩, ⟨6, 0⟩, ⟨0, 0⟩, ⟨3, 4⟩] 1 30
      = some [⟨0, 0⟩, ⟨3, 4⟩, ⟨6, 0⟩, ⟨0, 0⟩, ⟨3, 4⟩, ⟨6, 0⟩]
    ∧ ([⟨0, 0⟩, ⟨3, 4⟩, ⟨6, 0⟩, ⟨0, 0⟩, ⟨3, 4⟩, ⟨6, 0⟩] : List Point)
      ≠ [⟨3, 4⟩, ⟨6, 0⟩, ⟨0, 0⟩, ⟨3, 4⟩] := by
  refine ⟨by decide, by decide, by decide⟩

/-- C2 amended: `simplifyContour` is idempotent on every contour whose
simplification has at most 2 points (in particular on every contour with at
most 2 points); idempotence fails in general. -/
theorem simplifyContour_idempotent_of_short (sqrtQ : ℚ → ℚ) (c r : List Point)
    (tol : ℚ) (fuel fuel' : ℕ)
    (h : computerVision.simplifyContour sqrtQ c tol fuel = some r)
    (hr : r.length ≤ 2) :
    computerVision.simplifyContour sqrtQ r tol fuel' = some r := by
  unfold computerVision.simplifyContour
  simp [hr]

theorem simplifyContour_idempotent_of_short_witness :
    computerVision.simplifyContour sqrtModel [⟨0, 0⟩, ⟨5, 5⟩] 1 0
      = some [⟨0, 0⟩, ⟨5, 5⟩] :=
  simplifyContour_idempotent_of_short sqrtModel [⟨0, 0⟩, ⟨5, 5⟩]
    [⟨0, 0⟩, ⟨5, 5⟩] 1 0 0 (by decide) (by decide)

/-- C3 counterexample: on the contour `[(0,0), (10,0), (5,0)]`, whose points
are all collinear (on the x-axis, the line through the first and last
points), simplification with tolerance 1 does not return the two endpoints
`[(0,0), (5,0)]`: the middle point `(10,0)` lies outside the *segment* from
`(0,0)` to `(5,0)`, and `pointToLineDistance` measures distance to the
clamped segment (here 5 > 1), so the point is kept.  The only `Math.sqrt`
argument is the perfect square 25. -/
theorem simplifyContour_collinear_counterexample :
    computerVision.simplifyContour sqrtModel
        [⟨0, 0⟩, ⟨10, 0⟩, ⟨5, 0⟩] 1 30
      = some [⟨10, 0⟩, ⟨5, 0⟩, ⟨0, 0⟩, ⟨10, 0⟩]
    ∧ some [(⟨10, 0⟩ : Point), ⟨5, 0⟩, ⟨0, 0⟩, ⟨10, 0⟩]
      ≠ some [(⟨0, 0⟩ : Point), ⟨5, 0⟩] := by
  refine ⟨by decide, by decide⟩

/-- C3 amended: for every contour with at least 2 points all lying *on the
segment* between its first and last point, and every tolerance ≥ 0,
`simplifyContour` returns exactly the two endpoints.  (The original claim,
stated for points merely on the *line* through the endpoints, fails because
`pointToLineDistance` clamps to the segment.) -/
theorem simplifyContour_onSegment (sqrtQ : ℚ → ℚ) (c : List Point) (tol : ℚ)
    (fuel : ℕ) (hfuel : 1 ≤ fuel) (hlen : 2 ≤ c.length) (htol : 0 ≤ tol)
    (hs : sqrtQ 0 = 0)
    (hseg : ∀ i < c.length, ∃ t : ℚ, 0 ≤ t ∧ t ≤ 1 ∧
      (c.getD i ⟨0, 0⟩).x = (c.getD 0 ⟨0, 0⟩).x +
        t * ((c.getD (c.length - 1) ⟨0, 0⟩).x - (c.getD 0 ⟨0, 0⟩).x) ∧
      (c.getD i ⟨0, 0⟩).y = (c.getD 0 ⟨0, 0⟩).y +
        t * ((c.getD (c.length - 1) ⟨0, 0⟩).y - (c.getD 0 ⟨0, 0⟩).y)) :
    computerVision.simplifyContour sqrtQ c tol fuel
      = some [c.getD 0 ⟨0, 0⟩, c.getD (c.length - 1) ⟨0, 0⟩] := by
  rcases Nat.lt_or_ge c.length 3 with h3 | h3
  · -- c has exactly 2 points: the length ≤ 2 early return applies
    have h2 : c.length = 2 := le_antisymm (by omega) hlen
    obtain ⟨a, b, rfl⟩ := List.length_eq_two.mp h2
    simp [computerVision.simplifyContour, h2]
  · -- c has ≥ 3 points: one loop iteration collapses the whole chord
    obtain ⟨f, rfl⟩ : ∃ f, fuel = f + 1 := ⟨fuel - 1, by omega⟩
    have hnotshort : ¬ c.length ≤ 2 := by omega
    rw [computerVision.simplifyContour, if_neg hnotshort]
    rw [computerVision.simplifyLoop]
    have hmd : (List.range' (0 + 1) (c.length - 1 - 0 - 1)).foldl
        (fun acc i =>
          if computerVision.pointToLineDistance sqrtQ (c.getD i ⟨0, 0⟩)
              (c.getD 0 ⟨0, 0⟩) (c.getD (c.length - 1) ⟨0, 0⟩) > acc.1
          then (computerVision.pointToLineDistance sqrtQ (c.getD i ⟨0, 0⟩)
              (c.getD 0 ⟨0, 0⟩) (c.getD (c.length - 1) ⟨0, 0⟩), i)
          else acc) ((0 : ℚ), 0) = (0, 0) := by
      apply foldl_maxdist_zero
      intro i hi
      have hi' : i < c.length := by
        have := List.mem_range'_1.mp hi
        omega
      obtain ⟨t, ht0, ht1, hx, hy⟩ := hseg i hi'
      exact pointToLineDistance_eq_zero sqrtQ hs _ _ _ t ht0 ht1 hx hy
    rw [hmd]
    have hne : (0 : ℕ) ≠ c.length - 1 := by omega
    rw [if_neg (not_lt.mpr htol), if_pos hne]
    rw [computerVision.simplifyLoop]
    rfl

/-- Witness for the amended C3 theorem: the three collinear points
`(0,0), (2,2), (4,4)` all lie on the segment between the endpoints, and
simplification with tolerance 1 returns exactly the two endpoints. -/
theorem simplifyContour_onSegment_witness :
    computerVision.simplifyContour sqrtModel [⟨0, 0⟩, ⟨2, 2⟩, ⟨4, 4⟩] 1 2
      = some [⟨0, 0⟩, ⟨4, 4⟩] :=
  simplifyContour_onSegment sqrtModel [⟨0, 0⟩, ⟨2, 2⟩, ⟨4, 4⟩] 1 2
    (by decide) (by decide) (by decide) (by decide)
    (by
      intro i hi
      have hi3 : i < 3 := by simpa using hi
      interval_cases i
      · exact ⟨0, by decide⟩
      · exact ⟨1/2, by decide⟩
      · exact ⟨1, by decide⟩)

namespace computerVision

/-- A wall segment (`Wall` of computerVision.ts; `endP` renders the source
field `end`, which is a reserved word in Lean). -/
structure Wall where
  start : Point
  endP : Point
  length : ℚ
  angle : ℚ
deriving DecidableEq

/-- Walls extracted from one contour (the per-contour body of `detectWalls`
of computerVision.ts): the contour is simplified with tolerance 5 and each
consecutive vertex pair of length > 20 becomes a wall.  `at2` models
`Math.atan2`.  Contours with fewer than 20 points are skipped. -/
def wallsFromContour (sqrtQ : ℚ → ℚ) (at2 : ℚ → ℚ → ℚ) (fuel : ℕ)
    (contour : List Point) : Option (List Wall) :=
  if contour.length < 20 then some []
  else (simplifyContour sqrtQ contour 5 fuel).map fun simplified =>
    (List.range (simplified.length - 1)).filterMap fun i =>
      let s := simplified.getD i ⟨0, 0⟩
      let e := simplified.getD (i + 1) ⟨0, 0⟩
      let length := sqrtQ ((e.x - s.x) ^ 2 + (e.y - s.y) ^ 2)
      if length > 20 then some ⟨s, e, length, at2 (e.y - s.y) (e.x - s.x)⟩
      else none

/-- `detectWalls` of computerVision.ts: walls of all contours, in order. -/
def detectWalls (sqrtQ : ℚ → ℚ) (at2 : ℚ → ℚ → ℚ) (fuel : ℕ) :
    List (List Point) → Option (List Wall)
  | [] => some []
  | c :: rest => do
    let ws ← wallsFromContour sqrtQ at2 fuel c
    let rest' ← detectWalls sqrtQ at2 fuel rest
    pure (ws ++ rest')

end computerVision

/-- Every wall produced from a single contour satisfies the length filter:
its recorded `length` is `sqrtQ` of the squared endpoint distance and the
filter kept it only because that value exceeded 20. -/
theorem wallsFromContour_kept (sqrtQ : ℚ → ℚ) (at2 : ℚ → ℚ → ℚ) (fuel : ℕ)
    (c : List Point) (ws : List computerVision.Wall) (w : computerVision.Wall)
    (hc : computerVision.wallsFromContour sqrtQ at2 fuel c = some ws)
    (hw : w ∈ ws) :
    w.length = sqrtQ ((w.endP.x - w.start.x) ^ 2 + (w.endP.y - w.start.y) ^ 2)
      ∧ w.length > 20 := by
  unfold computerVision.wallsFromContour at hc
  by_cases hlen : c.length < 20
  · rw [if_pos hlen] at hc
    cases hc
    cases hw
  · rw [if_neg hlen] at hc
    cases hsimp : computerVision.simplifyContour sqrtQ c 5 fuel with
    | none => rw [hsimp] at hc; cases hc
    | some simplified =>
      rw [hsimp] at hc
      simp only [Option.map_some', Option.some.injEq] at hc
      subst hc
      obtain ⟨i, _hi, hkeep⟩ := List.mem_filterMap.mp hw
      split at hkeep
      next hgt =>
        cases hkeep
        exact ⟨rfl, hgt⟩
      next => cases hkeep

/-- Every wall in the output of `detectWalls` comes from one of the contours. -/
theorem detectWalls_mem (sqrtQ : ℚ → ℚ) (at2 : ℚ → ℚ → ℚ) (fuel : ℕ)
    (contours : List (List Point)) (ws : List computerVision.Wall)
    (w : computerVision.Wall)
    (hdw : computerVision.detectWalls sqrtQ at2 fuel contours = some ws)
    (hw : w ∈ ws) :
    ∃ c ∈ contours, ∃ cws,
      computerVision.wallsFromContour sqrtQ at2 fuel c = some cws ∧ w ∈ cws := by
  induction contours generalizing ws with
  | nil =>
    cases hdw
    cases hw
  | cons c rest ih =>
    simp only [computerVision.detectWalls] at hdw
    cases hcw : computerVision.wallsFromContour sqrtQ at2 fuel c with
    | none => rw [hcw] at hdw; cases hdw
    | some cws =>
      rw [hcw] at hdw
      cases hrest : computerVision.detectWalls sqrtQ at2 fuel rest with
      | none => rw [hrest] at hdw; cases hdw
      | some rws =>
        rw [hrest] at hdw
        simp only [Option.bind_eq_bind, Option.some_bind, Option.pure_def,
          Option.some.injEq] at hdw
        subst hdw
        rcases List.mem_append.mp hw with h | h
        · exact ⟨c, by simp, cws, hcw, h⟩
        · obtain ⟨c', hc', cws', h1, h2⟩ := ih rws hrest h
          exact ⟨c', by simp [hc'], cws', h1, h2⟩

/-- C6: `detectWalls` retains no segment whose Euclidean endpoint distance is
≤ 20px — every retained wall has squared endpoint distance > 400, which is
equivalent (for the true square root) to Euclidean distance > 20 — and the
walls produced from a single contour number at most (simplified vertex count
− 1).  The hypothesis on `sqrtQ` is satisfied by the true square root. -/
theorem detectWalls_spec (sqrtQ : ℚ → ℚ) (at2 : ℚ → ℚ → ℚ) (fuel : ℕ)
    (contours : List (List Point)) (ws cws : List computerVision.Wall)
    (simplified : List Point) (w : computerVision.Wall) (c : List Point)
    (hs : ∀ q : ℚ, 0 ≤ q → 20 < sqrtQ q → 400 < q)
    (hdw : computerVision.detectWalls sqrtQ at2 fuel contours = some ws)
    (hw : w ∈ ws)
    (hcw : computerVision.wallsFromContour sqrtQ at2 fuel c = some cws)
    (hsimp : computerVision.simplifyContour sqrtQ c 5 fuel = some simplified) :
    400 < (w.endP.x - w.start.x) ^ 2 + (w.endP.y - w.start.y) ^ 2
      ∧ cws.length ≤ simplified.length - 1 := by
  constructor
  · obtain ⟨c', _, cws', h1, h2⟩ := detectWalls_mem sqrtQ at2 fuel contours ws w hdw hw
    obtain ⟨hlen, hgt⟩ := wallsFromContour_kept sqrtQ at2 fuel c' cws' w h1 h2
    apply hs _ (by positivity)
    rw [← hlen]
    exact hgt
  · unfold computerVision.wallsFromContour at hcw
    by_cases hlen : c.length < 20
    · rw [if_pos hlen] at hcw
      cases hcw
      simp
    · rw [if_neg hlen, hsimp] at hcw
      simp only [Option.map_some', Option.some.injEq] at hcw
      subst hcw
      calc (List.filterMap _ (List.range (simplified.length - 1))).length
          ≤ (List.range (simplified.length - 1)).length :=
            List.length_filterMap_le _ _
        _ = simplified.length - 1 := List.length_range _

/-- Threshold-only stand-in for `Math.sqrt` used to witness `detectWalls_spec`
(it matches the true square root on the comparisons the witness run makes). -/
def sqrtThresh (q : ℚ) : ℚ := if 400 < q then 21 else 0

/-- Stand-in for `Math.atan2` (never evaluated in runs that produce no wall,
and irrelevant to the verified properties). -/
def atanZero (_y _x : ℚ) : ℚ := 0

/-- A 21-point horizontal contour from (0,0) to (100,0) in steps of 5. -/
def contour21 : List Point := (List.range 21).map fun i => ⟨(5 * i : ℕ), 0⟩

/-- The single wall `detectWalls` extracts from `contour21`. -/
def wall21 : computerVision.Wall := ⟨⟨0, 0⟩, ⟨100, 0⟩, 21, 0⟩

theorem detectWalls_spec_witness :
    400 < (wall21.endP.x - wall21.start.x) ^ 2 + (wall21.endP.y - wall21.start.y) ^ 2
      ∧ List.length [wall21] ≤ List.length [(⟨0, 0⟩ : Point), ⟨100, 0⟩] - 1 :=
  detectWalls_spec sqrtThresh atanZero 50 [contour21] [wall21] [wall21]
    [⟨0, 0⟩, ⟨100, 0⟩] wall21 contour21
    (by
      intro q _h0 h20
      by_cases h : 400 < q
      · exact h
      · rw [sqrtThresh, if_neg h] at h20
        norm_num at h20)
    (by decide) (by decide) (by decide) (by decide)

/-- Kernel-friendly decimal rendering of a natural number (for the JS
template string `room${id}`). -/
def natToStrGo : ℕ → ℕ → List Char
  | 0, _ => []
  | fuel + 1, n =>
    if n < 10 then [Char.ofNat (48 + n)]
    else natToStrGo fuel (n / 10) ++ [Char.ofNat (48 + n % 10)]

/-- Decimal rendering of a natural number. -/
def natToStr (n : ℕ) : String := ⟨natToStrGo 20 n⟩

namespace computerVision

/-- Read of the 2-D `visited[y][x]` boolean array, modelled as the bit
`y * width + x` of a natural-number bit set. -/
def vget (visited width x y : ℕ) : Bool := visited / 2 ^ (y * width + x) % 2 = 1

/-- Write of `visited[y][x] = true`.  Every call site guards the write with
`¬ vget`, so adding the power of two sets exactly that bit. -/
def vset (visited width x y : ℕ) : ℕ := visited + 2 ^ (y * width + x)

/-- `Room` of computerVision.ts (`area` and `type` are optional fields,
absent on the fallback rooms). -/
structure Room where
  id : String
  name : String
  color : String
  vertices : List (ℚ × ℚ)
  center : ℚ × ℚ
  area : Option ℚ
  type : Option String
deriving DecidableEq

/-- `classifyRoom` of computerVision.ts.  In JS, `ratio = mx / mn` is
`Infinity` when `mn = 0 < mx` and `NaN` when both vanish; since rational
division by zero is 0, the comparison `ratio > 2` is written out. -/
def classifyRoom (area width height : ℚ) : String :=
  let mx := max width height
  let mn := min width height
  let ratioGt2 : Bool := if mn = 0 then decide (mx ≠ 0) else decide (mx / mn > 2)
  if area < 2000 then "Bathroom"
  else if area < 5000 ∧ ratioGt2 then "Hallway"
  else if area < 5000 then "Bedroom"
  else if area < 8000 then "Kitchen"
  else if area < 12000 then "Living Room"
  else "Large Room"

/-- The fixed 8-colour palette of `createRoomFromPixels`. -/
def roomColors : List String :=
  ["#e3f2fd", "#f3e5f5", "#e8f5e8", "#fff3e0", "#fce4ec", "#f1f8e9", "#e0f2f1", "#fff8e1"]

/-- `createRoomFromPixels` of computerVision.ts.  `width`/`height` are the
class fields `this.width`/`this.height` of the analyzer. -/
def createRoomFromPixels (width height : ℕ) (pixels : List (ℕ × ℕ))
    (roomId : ℕ) : Room :=
  let xs := pixels.map fun p => (p.1 : ℚ)
  let ys := pixels.map fun p => (p.2 : ℚ)
  let minX := xs.foldl min (xs.headD 0)
  let maxX := xs.foldl max (xs.headD 0)
  let minY := ys.foldl min (ys.headD 0)
  let maxY := ys.foldl max (ys.headD 0)
  let centerX := (minX + maxX) / 2
  let centerY := (minY + maxY) / 2
  let scale : ℚ := 0.5
  let offsetX : ℚ := (width : ℚ) / 2
  let offsetY : ℚ := (height : ℚ) / 2
  let vertices : List (ℚ × ℚ) :=
    [((minX - offsetX) * scale, (minY - offsetY) * scale),
     ((maxX - offsetX) * scale, (minY - offsetY) * scale),
     ((maxX - offsetX) * scale, (maxY - offsetY) * scale),
     ((minX - offsetX) * scale, (maxY - offsetY) * scale)]
  let center : ℚ × ℚ := ((centerX - offsetX) * scale, (centerY - offsetY) * scale)
  let area : ℚ := pixels.length
  let roomType := classifyRoom area (maxX - minX) (maxY - minY)
  { id := "room" ++ natToStr roomId
    name := roomType
    color := roomColors.getD ((roomId - 1) % roomColors.length) ""
    vertices := vertices
    center := center
    area := some area
    type := some roomType }

/-- Loop body of `floodFill` of computerVision.ts.  The stack (head = top of
the JS array) holds signed coordinates: the source pushes the four
4-connected neighbours unconditionally and bounds-checks at pop time.
`slen`/`plen` mirror the O(1) JS `.length` reads of stack and pixel list;
the pixel list is accumulated in reverse and reversed on return.  The fuel
used by `floodFill` strictly exceeds the pop count of any run (each of the
≤ `width * height` markings pushes 4 entries). -/
def floodFillGo (data : Buf) (width height : ℕ) (threshold : ℚ) :
    ℕ → List (ℤ × ℤ) → ℕ → List (ℕ × ℕ) → ℕ → ℕ → List (ℕ × ℕ) × ℕ
  | _, [], _, revPixels, _, visited => (revPixels.reverse, visited)
  | 0, _ :: _, _, revPixels, _, visited => (revPixels.reverse, visited)
  | fuel + 1, (x, y) :: rest, slen, revPixels, plen, visited =>
    if slen > 15000 ∨ plen > 50000 then (revPixels.reverse, visited)
    else if x < 0 ∨ (width : ℤ) ≤ x ∨ y < 0 ∨ (height : ℤ) ≤ y
        ∨ vget visited width x.toNat y.toNat then
      floodFillGo data width height threshold fuel rest (slen - 1) revPixels plen visited
    else if data (4 * (y.toNat * width + x.toNat)) ≤ threshold then
      floodFillGo data width height threshold fuel rest (slen - 1) revPixels plen visited
    else
      floodFillGo data width height threshold fuel
        ((x, y - 1) :: (x, y + 1) :: (x - 1, y) :: (x + 1, y) :: rest) (slen + 3)
        ((x.toNat, y.toNat) :: revPixels) (plen + 1)
        (vset visited width x.toNat y.toNat)

/-- `floodFill` of computerVision.ts: returns the connected bright region
and the updated (shared) visited set. -/
def floodFill (data : Buf) (width height startX startY : ℕ) (threshold : ℚ)
    (visited : ℕ) : List (ℕ × ℕ) × ℕ :=
  floodFillGo data width height threshold (4 * width * height + 5)
    [((startX : ℤ), (startY : ℤ))] 1 [] 0 visited

/-- One sampled grid cell of the `detectRooms` scan.  The state is
(visited bit set, rooms so far, next room id `roomCounter`); the
`rooms.length < 20` loop guard of the source is checked per cell. -/
def detectRoomsStep (data : Buf) (width height : ℕ)
    (st : ℕ × List Room × ℕ) (x y : ℕ) : ℕ × List Room × ℕ :=
  if st.2.1.length < 20 ∧ data (4 * (y * width + x)) > 200 ∧ ¬ vget st.1 width x y then
    let fr := floodFill data width height x y 200 st.1
    if 1000 < fr.1.length ∧ fr.1.length < 30000 then
      (fr.2, st.2.1 ++ [createRoomFromPixels width height fr.1 st.2.2], st.2.2 + 1)
    else (fr.2, st.2.1, st.2.2)
  else st

/-- `detectRooms` of computerVision.ts: scan a stride-15 grid for bright
unvisited seeds, flood fill each, and accept regions of 1000–30000 pixels. -/
def detectRooms (data : Buf) (width height : ℕ) : List Room :=
  let ys := (List.range ((height + 14) / 15)).map fun i => 15 * i
  let xs := (List.range ((width + 14) / 15)).map fun i => 15 * i
  (ys.foldl
    (fun st y => xs.foldl (fun st x => detectRoomsStep data width height st x y) st)
    (0, [], 1)).2.1

end computerVision

/-- Fold preservation of an invariant. -/
theorem foldl_preserve {α σ : Type _} (P : σ → Prop) (f : σ → α → σ)
    (l : List α) (st : σ) (hf : ∀ s a, P s → P (f s a)) (hst : P st) :
    P (l.foldl f st) := by
  induction l generalizing st with
  | nil => exact hst
  | cons a l ih => exact ih (f st a) (hf st a hst)

/-- Every room accepted by one `detectRooms` grid cell satisfies the size
invariant: 4 recorded vertices and a pixel area strictly inside
(1000, 30000). -/
theorem detectRoomsStep_invariant (data : computerVision.Buf)
    (width height : ℕ) (st : ℕ × List computerVision.Room × ℕ) (x y : ℕ)
    (P : computerVision.Room → Prop)
    (hnew : ∀ pixels roomId, 1000 < pixels.length → pixels.length < 30000 →
      P (computerVision.createRoomFromPixels width height pixels roomId))
    (hst : ∀ r ∈ st.2.1, P r) :
    ∀ r ∈ (computerVision.detectRoomsStep data width height st x y).2.1, P r := by
  simp only [computerVision.detectRoomsStep]
  split
  · split
    next h =>
      intro r hr
      rcases List.mem_append.mp hr with h' | h'
      · exact hst r h'
      · rcases List.mem_singleton.mp h' with rfl
        exact hnew _ _ h.1 h.2
    next => exact hst
  · exact hst

/-- C5: every `Room` returned by `detectRooms` has at least 3 polygon
vertices (it always has exactly 4) and a recorded pixel area inside
[1000, 30000] (the code accepts only areas strictly between those bounds). -/
theorem detectRooms_spec (data : computerVision.Buf) (width height : ℕ)
    (r : computerVision.Room)
    (hr : r ∈ computerVision.detectRooms data width height) :
    3 ≤ r.vertices.length ∧ r.area.isSome
      ∧ 1000 ≤ r.area.getD 0 ∧ r.area.getD 0 ≤ 30000 := by
  revert r
  unfold computerVision.detectRooms
  exact
    let P : (ℕ × List computerVision.Room × ℕ) → Prop := fun st =>
      ∀ r ∈ st.2.1, 3 ≤ r.vertices.length ∧ r.area.isSome
        ∧ 1000 ≤ r.area.getD 0 ∧ r.area.getD 0 ≤ 30000
    foldl_preserve P _ _ _
      (fun s y hs => foldl_preserve P _ _ _
        (fun s' x hs' => by
          apply detectRoomsStep_invariant data width height s' x y _ _ hs'
          intro pixels roomId h1 h2
          refine ⟨by simp [computerVision.createRoomFromPixels],
            by simp [computerVision.createRoomFromPixels], ?_, ?_⟩
          · simp only [computerVision.createRoomFromPixels, Option.getD_some]
            exact_mod_cast Nat.le_of_lt h1
          · simp only [computerVision.createRoomFromPixels, Option.getD_some]
            exact_mod_cast Nat.le_of_lt h2) hs)
      (fun r hr => absurd hr (List.not_mem_nil r))

/-- The all-white raster: every RGBA byte reads 255. -/
def whiteData : computerVision.Buf := fun _ => 255

/-- Inhabitant used only as the `headD` default below. -/
def emptyRoom : computerVision.Room := ⟨"", "", "", [], (0, 0), none, none⟩

theorem vget_eq_testBit (v w x y : ℕ) :
    computerVision.vget v w x y = Nat.testBit v (y * w + x) :=
  Nat.testBit_to_div_mod.symm

/-- Bits of the mask `2 ^ n - 1`. -/
theorem vget_pow_sub_one (n w x : ℕ) :
    computerVision.vget (2 ^ n - 1) w x 0 = decide (x < n) := by
  rw [vget_eq_testBit]
  simp

/-- One discarded pop of the flood-fill loop. -/
theorem floodFillGo_discard (data : computerVision.Buf) (w h : ℕ) (th : ℚ)
    (f slen plen visited : ℕ) (revPixels : List (ℕ × ℕ)) (x y : ℤ)
    (rest : List (ℤ × ℤ)) (hcap : ¬ (slen > 15000 ∨ plen > 50000))
    (hdisc : x < 0 ∨ (w : ℤ) ≤ x ∨ y < 0 ∨ (h : ℤ) ≤ y
      ∨ computerVision.vget visited w x.toNat y.toNat) :
    computerVision.floodFillGo data w h th (f + 1) ((x, y) :: rest) slen
        revPixels plen visited
      = computerVision.floodFillGo data w h th f rest (slen - 1)
        revPixels plen visited := by
  simp only [computerVision.floodFillGo]
  rw [if_neg hcap, if_pos hdisc]

/-- One marking pop of the flood-fill loop. -/
theorem floodFillGo_mark (data : computerVision.Buf) (w h : ℕ) (th : ℚ)
    (f slen plen visited : ℕ) (revPixels : List (ℕ × ℕ)) (x y : ℤ)
    (rest : List (ℤ × ℤ)) (hcap : ¬ (slen > 15000 ∨ plen > 50000))
    (hok : ¬ (x < 0 ∨ (w : ℤ) ≤ x ∨ y < 0 ∨ (h : ℤ) ≤ y
      ∨ computerVision.vget visited w x.toNat y.toNat))
    (hdata : ¬ (data (4 * (y.toNat * w + x.toNat)) ≤ th)) :
    computerVision.floodFillGo data w h th (f + 1) ((x, y) :: rest) slen
        revPixels plen visited
      = computerVision.floodFillGo data w h th f
        ((x, y - 1) :: (x, y + 1) :: (x - 1, y) :: (x + 1, y) :: rest) (slen + 3)
        ((x.toNat, y.toNat) :: revPixels) (plen + 1)
        (computerVision.vset visited w x.toNat y.toNat) := by
  simp only [computerVision.floodFillGo]
  rw [if_neg hcap, if_neg hok, if_neg hdata]

/-- The first `n` pixels of an all-white single-row raster, in scan order. -/
def rowPixels (n : ℕ) : List (ℕ × ℕ) := (List.range n).map fun k => (k, 0)

/-- Flood-fill stack state just after marking pixel `k` of the single row. -/
def rowStack (k : ℕ) : List (ℤ × ℤ) :=
  [((k : ℤ), -1), ((k : ℤ), 1), ((k : ℤ) - 1, 0), ((k : ℤ) + 1, 0)]

theorem rowPixels_succ (n : ℕ) :
    rowPixels (n + 1) = rowPixels n ++ [(n, 0)] := by
  simp [rowPixels, List.range_succ]

/-- Invariant run of the flood fill over the all-white 1048×1 raster: from
the state just after marking pixel `k`, the loop marks the remaining pixels
of the row and terminates with all 1048 pixels collected. -/
theorem floodFillGo_row : ∀ m k fuel : ℕ, k + m = 1047 → 4 * m + 4 ≤ fuel →
    computerVision.floodFillGo whiteData 1048 1 200 fuel (rowStack k) 4
        ((rowPixels (k + 1)).reverse) (k + 1) (2 ^ (k + 1) - 1)
      = (rowPixels 1048, 2 ^ 1048 - 1) := by
  intro m
  induction m with
  | zero =>
    intro k fuel hk hfuel
    obtain rfl : k = 1047 := by omega
    obtain ⟨f, rfl⟩ : ∃ f, fuel = f + 1 + 1 + 1 + 1 := ⟨fuel - 4, by omega⟩
    rw [rowStack]
    rw [floodFillGo_discard whiteData 1048 1 200 (f + 1 + 1 + 1) 4 (1047 + 1)
      (2 ^ (1047 + 1) - 1) ((rowPixels (1047 + 1)).reverse) ((1047 : ℕ) : ℤ) (-1)
      [(((1047 : ℕ) : ℤ), 1), (((1047 : ℕ) : ℤ) - 1, 0), (((1047 : ℕ) : ℤ) + 1, 0)]
      (by omega) (Or.inr (Or.inr (Or.inl (by norm_num))))]
    rw [floodFillGo_discard whiteData 1048 1 200 (f + 1 + 1) (4 - 1) (1047 + 1)
      (2 ^ (1047 + 1) - 1) ((rowPixels (1047 + 1)).reverse) ((1047 : ℕ) : ℤ) 1
      [(((1047 : ℕ) : ℤ) - 1, 0), (((1047 : ℕ) : ℤ) + 1, 0)]
      (by omega) (Or.inr (Or.inr (Or.inr (Or.inl (by norm_num)))))]
    rw [floodFillGo_discard whiteData 1048 1 200 (f + 1) (4 - 1 - 1) (1047 + 1)
      (2 ^ (1047 + 1) - 1) ((rowPixels (1047 + 1)).reverse) (((1047 : ℕ) : ℤ) - 1) 0
      [(((1047 : ℕ) : ℤ) + 1, 0)]
      (by omega) (Or.inr (Or.inr (Or.inr (Or.inr (by
        simp only [Int.toNat_zero]
        rw [show (((1047 : ℕ) : ℤ) - 1).toNat = 1046 by omega, vget_pow_sub_one]
        norm_num)))))]
    rw [floodFillGo_discard whiteData 1048 1 200 f (4 - 1 - 1 - 1) (1047 + 1)
      (2 ^ (1047 + 1) - 1) ((rowPixels (1047 + 1)).reverse) (((1047 : ℕ) : ℤ) + 1) 0 []
      (by omega) (Or.inr (Or.inl (by norm_num)))]
    simp only [computerVision.floodFillGo, List.reverse_reverse]
  | succ m ih =>
    intro k fuel hk hfuel
    obtain ⟨f, rfl⟩ : ∃ f, fuel = f + 1 + 1 + 1 + 1 := ⟨fuel - 4, by omega⟩
    rw [rowStack]
    rw [floodFillGo_discard whiteData 1048 1 200 (f + 1 + 1 + 1) 4 (k + 1)
      (2 ^ (k + 1) - 1) ((rowPixels (k + 1)).reverse) (k : ℤ) (-1)
      [((k : ℤ), 1), ((k : ℤ) - 1, 0), ((k : ℤ) + 1, 0)]
      (by omega) (Or.inr (Or.inr (Or.inl (by norm_num))))]
    rw [floodFillGo_discard whiteData 1048 1 200 (f + 1 + 1) (4 - 1) (k + 1)
      (2 ^ (k + 1) - 1) ((rowPixels (k + 1)).reverse) (k : ℤ) 1
      [((k : ℤ) - 1, 0), ((k : ℤ) + 1, 0)]
      (by omega) (Or.inr (Or.inr (Or.inr (Or.inl (by norm_num)))))]
    rw [floodFillGo_discard whiteData 1048 1 200 (f + 1) (4 - 1 - 1) (k + 1)
      (2 ^ (k + 1) - 1) ((rowPixels (k + 1)).reverse) ((k : ℤ) - 1) 0
      [((k : ℤ) + 1, 0)]
      (by omega) (Or.inr (Or.inr (Or.inr (Or.inr (by
        simp only [Int.toNat_zero]
        rw [show ((k : ℤ) - 1).toNat = k - 1 by omega, vget_pow_sub_one]
        simp only [decide_eq_true_eq]
        omega)))))]
    rw [floodFillGo_mark whiteData 1048 1 200 f (4 - 1 - 1 - 1) (k + 1)
      (2 ^ (k + 1) - 1) ((rowPixels (k + 1)).reverse) ((k : ℤ) + 1) 0 []
      (by omega)
      (by
        push_neg
        refine ⟨by omega, by omega, by norm_num, by norm_num, ?_⟩
        simp only [Int.toNat_zero]
        rw [show ((k : ℤ) + 1).toNat = k + 1 by omega, vget_pow_sub_one]
        simp)
      (by norm_num [whiteData])]
    have hpix : ((((k : ℤ) + 1).toNat, (0 : ℤ).toNat) :: (rowPixels (k + 1)).reverse)
        = (rowPixels (k + 2)).reverse := by
      rw [show ((k : ℤ) + 1).toNat = k + 1 by omega]
      rw [rowPixels_succ (k + 1), List.reverse_append]
      rfl
    have hvis : computerVision.vset (2 ^ (k + 1) - 1) 1048 ((k : ℤ) + 1).toNat
        (0 : ℤ).toNat = 2 ^ (k + 2) - 1 := by
      rw [show ((k : ℤ) + 1).toNat = k + 1 by omega]
      simp only [computerVision.vset, Int.toNat_zero, Nat.zero_mul, Nat.zero_add]
      have h2 : (2 : ℕ) ^ (k + 2) = 2 ^ (k + 1) * 2 := pow_succ 2 (k + 1)
      have h1 : (1 : ℕ) ≤ 2 ^ (k + 1) := Nat.one_le_two_pow
      omega
    rw [hpix, hvis]
    have hstack : (((k : ℤ) + 1, (0 : ℤ) - 1) :: ((k : ℤ) + 1, (0 : ℤ) + 1)
          :: ((k : ℤ) + 1 - 1, 0) :: ((k : ℤ) + 1 + 1, 0) :: ([] : List (ℤ × ℤ)))
        = rowStack (k + 1) := by
      simp only [rowStack]
      norm_num
    rw [hstack]
    exact ih (k + 1) f (by omega) (by omega)

/-- A fold whose step fixes the state leaves it unchanged. -/
theorem foldl_const {α σ : Type _} (f : σ → α → σ) (st : σ) (l : List α)
    (h : ∀ a ∈ l, f st a = st) : l.foldl f st = st := by
  induction l with
  | nil => rfl
  | cons a l ih =>
    rw [List.foldl_cons, h a (by simp)]
    exact ih fun a ha => h a (by simp [ha])

/-- The flood fill launched from (0,0) on the all-white 1048×1 raster marks
the whole row. -/
theorem floodFill_white_row :
    computerVision.floodFill whiteData 1048 1 0 0 200 0
      = (rowPixels 1048, 2 ^ 1048 - 1) := by
  unfold computerVision.floodFill
  rw [show 4 * 1048 * 1 + 5 = 4196 + 1 by norm_num]
  rw [floodFillGo_mark whiteData 1048 1 200 4196 1 0 0 [] ((0 : ℕ) : ℤ)
      ((0 : ℕ) : ℤ) []
      (by omega)
      (by
        push_neg
        refine ⟨by omega, by omega, by omega, by omega, ?_⟩
        simp [computerVision.vget])
      (by norm_num [whiteData])]
  have hstack0 : ((((0 : ℕ) : ℤ), ((0 : ℕ) : ℤ) - 1) :: (((0 : ℕ) : ℤ), ((0 : ℕ) : ℤ) + 1)
        :: (((0 : ℕ) : ℤ) - 1, ((0 : ℕ) : ℤ)) :: (((0 : ℕ) : ℤ) + 1, ((0 : ℕ) : ℤ))
        :: ([] : List (ℤ × ℤ))) = rowStack 0 := by
    simp only [rowStack]
    norm_num
  have hpix0 : (((((0 : ℕ) : ℤ)).toNat, (((0 : ℕ) : ℤ)).toNat)
        :: ([] : List (ℕ × ℕ))) = (rowPixels (0 + 1)).reverse := by
    decide
  have hvis0 : computerVision.vset 0 1048 (((0 : ℕ) : ℤ)).toNat
      (((0 : ℕ) : ℤ)).toNat = 2 ^ (0 + 1) - 1 := by
    simp [computerVision.vset]
  rw [hstack0, hpix0, hvis0]
  exact floodFillGo_row 1047 0 4196 (by norm_num) (by norm_num)

/-- `detectRooms` on the all-white 1048×1 raster yields exactly the one room
built from the full row. -/
theorem detectRooms_white_row :
    computerVision.detectRooms whiteData 1048 1
      = [computerVision.createRoomFromPixels 1048 1 (rowPixels 1048) 1] := by
  have h1 : computerVision.detectRooms whiteData 1048 1
      = (((List.range ((1 + 14) / 15)).map (fun i => 15 * i)).foldl
          (fun st y => ((List.range ((1048 + 14) / 15)).map (fun i => 15 * i)).foldl
            (fun st x => computerVision.detectRoomsStep whiteData 1048 1 st x y) st)
          (0, [], 1)).2.1 := rfl
  rw [h1, show (1 + 14) / 15 = 1 from rfl, show (1048 + 14) / 15 = 70 from rfl]
  rw [show List.range 1 = [0] from rfl]
  rw [show List.range 70 = 0 :: (List.range 69).map Nat.succ from
    List.range_succ_eq_map 69]
  simp only [List.map_cons, List.map_nil, List.foldl_cons, List.foldl_nil,
    Nat.mul_zero, List.map_map]
  have hstep : computerVision.detectRoomsStep whiteData 1048 1
      (0, ([] : List computerVision.Room), 1) 0 0
      = (2 ^ 1048 - 1,
        [computerVision.createRoomFromPixels 1048 1 (rowPixels 1048) 1], 2) := by
    simp only [computerVision.detectRoomsStep, floodFill_white_row]
    rw [if_pos ⟨by simp, by norm_num [whiteData], by simp [computerVision.vget]⟩]
    rw [if_pos ⟨by simp [rowPixels], by simp [rowPixels]⟩]
    simp
  rw [hstep]
  have hfix : ∀ a ∈ (List.range 69).map ((fun i => 15 * i) ∘ Nat.succ),
      computerVision.detectRoomsStep whiteData 1048 1
        (2 ^ 1048 - 1,
          [computerVision.createRoomFromPixels 1048 1 (rowPixels 1048) 1], 2) a 0
      = (2 ^ 1048 - 1,
          [computerVision.createRoomFromPixels 1048 1 (rowPixels 1048) 1], 2) := by
    intro a ha
    simp only [List.mem_map, List.mem_range, Function.comp] at ha
    obtain ⟨i, hi, rfl⟩ := ha
    simp only [computerVision.detectRoomsStep]
    rw [if_neg]
    intro hcond
    apply hcond.2.2
    rw [vget_pow_sub_one]
    simp only [decide_eq_true_eq]
    omega
  rw [foldl_const _ _ _ hfix]

theorem detectRooms_spec_witness :
    3 ≤ ((computerVision.detectRooms whiteData 1048 1).headD emptyRoom).vertices.length
    ∧ ((computerVision.detectRooms whiteData 1048 1).headD emptyRoom).area.isSome
    ∧ 1000 ≤ ((computerVision.detectRooms whiteData 1048 1).headD emptyRoom).area.getD 0
    ∧ ((computerVision.detectRooms whiteData 1048 1).headD emptyRoom).area.getD 0 ≤ 30000 :=
  detectRooms_spec whiteData 1048 1 _ (by rw [detectRooms_white_row]; simp)

namespace lineClassifier

/-- `LineType` of lineClassifier.ts (the `ANNOTATION` member is rendered
`annotationLine`). -/
inductive LineType where
  | wall
  | dimension
  | annotationLine
  | symbolBoundary
  | gridLine
  | constructionLine
  | hiddenLine
  | centerLine
  | sectionLine
  | elevationLine
  | unknown
deriving DecidableEq

/-- `LineStyle` of lineClassifier.ts. -/
inductive LineStyle where
  | solid
  | dashed
  | dotted
  | dashDot
  | hidden
  | center
deriving DecidableEq

/-- `LineFeatures` of lineClassifier.ts. -/
structure LineFeatures where
  thickness : ℚ
  style : LineStyle
  intensity : ℚ
  straightness : ℚ
  continuity : ℚ
  parallelLines : ℕ
  perpendicularLines : ℕ
  nearbyText : Bool
  nearbySymbols : Bool
  junctionCount : ℕ
  cornerPoints : List Point
deriving DecidableEq

/-- `Line` of lineClassifier.ts. -/
structure Line where
  id : String
  startPoint : Point
  endPoint : Point
  type : LineType
  style : LineStyle
  thickness : ℚ
  confidence : ℚ
  length : ℚ
  angle : ℚ
  features : LineFeatures
deriving DecidableEq

/-- `ClassificationOptions` of lineClassifier.ts. -/
structure ClassificationOptions where
  enableMLClassification : Bool
  useContextAnalysis : Bool
  minLineLength : ℚ
  confidenceThreshold : ℚ
  debugMode : Bool
deriving DecidableEq

/-- The defaulted options of `classifyLines` (no caller overrides). -/
def defaultClassificationOptions : ClassificationOptions :=
  { enableMLClassification := true
    useContextAnalysis := true
    minLineLength := 10
    confidenceThreshold := 0.5
    debugMode := false }

/-- `ClassificationResult.statistics` of lineClassifier.ts. -/
structure ClassificationStats where
  totalLines : ℕ
  wallLines : ℕ
  dimensionLines : ℕ
  annotationLines : ℕ
  unknownLines : ℕ
deriving DecidableEq

/-- `ClassificationResult` of lineClassifier.ts (the `processingTime` field,
a wall-clock measurement, is not modelled). -/
structure ClassificationResult where
  lines : List Line
  confidence : ℚ
  statistics : ClassificationStats
deriving DecidableEq

/-- `classifyWithHeuristics` of lineClassifier.ts (its `imageData` parameter
is unused in the source body and therefore omitted). -/
def classifyWithHeuristics (lines : List Line) : List Line :=
  lines.map fun line =>
    let tc : LineType × ℚ :=
      if line.thickness > 2 ∧ line.length > 50 ∧ line.features.straightness > 0.8 then
        (LineType.wall, 0.8)
      else if line.features.style = LineStyle.dashed ∧ line.features.nearbyText then
        (LineType.dimension, 0.7)
      else if line.thickness < 2 ∧ line.features.nearbyText then
        (LineType.annotationLine, 0.6)
      else if line.features.style = LineStyle.dotted ∧ line.features.parallelLines > 2 then
        (LineType.gridLine, 0.7)
      else (LineType.unknown, 0.5)
    { line with type := tc.1, confidence := tc.2 }

/-- The parallel test of `applyContextAnalysis` (`angleDiff < 0.1` or
`|angleDiff − π| < 0.1`); `piQ` models `Math.PI`. -/
def isParallelPair (piQ : ℚ) (l1 l2 : Line) : Bool :=
  let angleDiff := |l1.angle - l2.angle|
  angleDiff < 0.1 ∨ |angleDiff - piQ| < 0.1

/-- The perpendicular test of `applyContextAnalysis`. -/
def isPerpendicularPair (piQ : ℚ) (l1 l2 : Line) : Bool :=
  let angleDiff := |l1.angle - l2.angle|
  |angleDiff - piQ / 2| < 0.1 ∨ |angleDiff - 3 * piQ / 2| < 0.1

/-- `applyContextAnalysis` of lineClassifier.ts.  The source's i<j double
loop increments both ends of each qualifying pair; since both tests depend
only on `|angle₁ − angle₂|` they are symmetric, so line `i` ends up with its
original count plus the number of other lines `j ≠ i` that qualify.  The
second pass then promotes still-unknown lines with more than 3 parallel
neighbours to walls, with confidence `min 0.9 (confidence + 0.2)`. -/
def applyContextAnalysis (piQ : ℚ) (lines : List Line) : List Line :=
  let counted := lines.enum.map fun p =>
    let l := p.2
    let para := (lines.enum.filter fun q => q.1 ≠ p.1 ∧ isParallelPair piQ l q.2).length
    let perp := (lines.enum.filter fun q => q.1 ≠ p.1 ∧ isPerpendicularPair piQ l q.2).length
    { l with features := { l.features with
        parallelLines := l.features.parallelLines + para
        perpendicularLines := l.features.perpendicularLines + perp } }
  counted.map fun l =>
    if l.features.parallelLines > 3 ∧ l.type = LineType.unknown then
      { l with type := LineType.wall, confidence := min 0.9 (l.confidence + 0.2) }
    else l

/-- `calculateStatistics` of lineClassifier.ts. -/
def calculateStatistics (lines : List Line) : ClassificationStats :=
  lines.foldl
    (fun st line =>
      if line.type = LineType.wall then { st with wallLines := st.wallLines + 1 }
      else if line.type = LineType.dimension then
        { st with dimensionLines := st.dimensionLines + 1 }
      else if line.type = LineType.annotationLine then
        { st with annotationLines := st.annotationLines + 1 }
      else { st with unknownLines := st.unknownLines + 1 })
    { totalLines := lines.length, wallLines := 0, dimensionLines := 0
      annotationLines := 0, unknownLines := 0 }

/-- `calculateOverallConfidence` of lineClassifier.ts. -/
def calculateOverallConfidence (lines : List Line) : ℚ :=
  if lines.length = 0 then 0
  else (lines.map fun l => l.confidence).sum / lines.length

/-- The classification core of `classifyLines` of lineClassifier.ts on the
heuristic path (no TensorFlow model loaded — the always-available fallback),
applied to the feature-extracted lines: classify, optionally run context
analysis, filter by confidence threshold AND minimum line length, and
assemble the result. -/
def classifyLinesCore (piQ : ℚ) (linesWithFeatures : List Line)
    (opts : ClassificationOptions) : ClassificationResult :=
  let classifiedLines := classifyWithHeuristics linesWithFeatures
  let contextLines :=
    if opts.useContextAnalysis then applyContextAnalysis piQ classifiedLines
    else classifiedLines
  let filteredLines := contextLines.filter fun line =>
    line.confidence ≥ opts.confidenceThreshold ∧ line.length ≥ opts.minLineLength
  { lines := filteredLines
    confidence := calculateOverallConfidence filteredLines
    statistics := calculateStatistics filteredLines }

end lineClassifier

/-- Heuristic classification always assigns one of the confidences
0.5, 0.6, 0.7, 0.8 — in particular a value in [0, 1]. -/
theorem classifyWithHeuristics_confidence (lines : List lineClassifier.Line)
    (l : lineClassifier.Line) (hl : l ∈ lineClassifier.classifyWithHeuristics lines) :
    0 ≤ l.confidence ∧ l.confidence ≤ 1 := by
  obtain ⟨l0, _, rfl⟩ := List.mem_map.mp hl
  dsimp only
  split_ifs <;> norm_num

/-- Context analysis keeps confidences inside [0, 1]: each output line either
keeps the confidence of its source line or replaces it by
`min 0.9 (confidence + 0.2)`. -/
theorem applyContextAnalysis_confidence (piQ : ℚ)
    (lines : List lineClassifier.Line) (l : lineClassifier.Line)
    (hl : l ∈ lineClassifier.applyContextAnalysis piQ lines)
    (hb : ∀ l0 ∈ lines, 0 ≤ l0.confidence ∧ l0.confidence ≤ 1) :
    0 ≤ l.confidence ∧ l.confidence ≤ 1 := by
  obtain ⟨l1, hl1, rfl⟩ := List.mem_map.mp hl
  obtain ⟨p, hp, rfl⟩ := List.mem_map.mp hl1
  have hmem : p.2 ∈ lines := by
    have := List.mem_map_of_mem Prod.snd hp
    rwa [List.enum_map_snd] at this
  obtain ⟨h0, h1⟩ := hb p.2 hmem
  dsimp only
  split
  · constructor
    · exact le_min (by norm_num) (by linarith)
    · exact le_trans (min_le_left _ _) (by norm_num)
  · exact ⟨h0, h1⟩

/-- C4 (amended): on the heuristic classification path, every classified
line's confidence lies in [0, 1], and the final filter keeps exactly the
classified lines with confidence ≥ the threshold AND length ≥ the minimum
line length (the original claim omits the length condition). -/
theorem classifyLinesCore_spec (piQ : ℚ) (lines : List lineClassifier.Line)
    (opts : lineClassifier.ClassificationOptions) (l l' : lineClassifier.Line)
    (hl : l ∈ (if opts.useContextAnalysis then
      lineClassifier.applyContextAnalysis piQ
        (lineClassifier.classifyWithHeuristics lines)
      else lineClassifier.classifyWithHeuristics lines))
    (hl' : l' ∈ (lineClassifier.classifyLinesCore piQ lines opts).lines) :
    (0 ≤ l.confidence ∧ l.confidence ≤ 1)
    ∧ (opts.confidenceThreshold ≤ l.confidence → opts.minLineLength ≤ l.length →
        l ∈ (lineClassifier.classifyLinesCore piQ lines opts).lines)
    ∧ opts.confidenceThreshold ≤ l'.confidence
    ∧ opts.minLineLength ≤ l'.length := by
  have hbounds : 0 ≤ l.confidence ∧ l.confidence ≤ 1 := by
    by_cases hctx : opts.useContextAnalysis
    · rw [if_pos hctx] at hl
      exact applyContextAnalysis_confidence piQ _ l hl
        (classifyWithHeuristics_confidence lines)
    · rw [if_neg hctx] at hl
      exact classifyWithHeuristics_confidence lines l hl
  refine ⟨hbounds, ?_, ?_⟩
  · intro hconf hlen
    simp only [lineClassifier.classifyLinesCore]
    apply List.mem_filter.mpr
    refine ⟨hl, ?_⟩
    simp only [ge_iff_le, decide_eq_true_eq, Bool.decide_and, Bool.and_eq_true]
    exact ⟨by simpa using hconf, by simpa using hlen⟩
  · have := List.mem_filter.mp hl'
    have hcond := this.2
    simp only [ge_iff_le, decide_eq_true_eq, Bool.decide_and, Bool.and_eq_true] at hcond
    exact ⟨by simpa using hcond.1, by simpa using hcond.2⟩

/-- Rational model of the IEEE-754 value of `Math.PI` (shortest round-trip
decimal); in the concrete runs below every angle comparison is far from the
0.1 tolerance, so any value this close to π gives the same outcomes. -/
def mathPI : ℚ := 3.141592653589793

/-- A thick, long, straight line (heuristically a wall, confidence 0.8). -/
def wallLine60 : lineClassifier.Line :=
  { id := "line_0"
    startPoint := ⟨0, 0⟩
    endPoint := ⟨60, 0⟩
    type := lineClassifier.LineType.unknown
    style := lineClassifier.LineStyle.solid
    thickness := 3
    confidence := 0
    length := 60
    angle := 0
    features :=
      { thickness := 3
        style := lineClassifier.LineStyle.solid
        intensity := 0.5
        straightness := 0.9
        continuity := 1
        parallelLines := 0
        perpendicularLines := 0
        nearbyText := false
        nearbySymbols := false
        junctionCount := 0
        cornerPoints := [] } }

/-- A thin 5px line next to text (heuristically an annotation line,
confidence 0.6, but shorter than the 10px minimum length). -/
def annotLine5 : lineClassifier.Line :=
  { id := "line_1"
    startPoint := ⟨0, 0⟩
    endPoint := ⟨3, 4⟩
    type := lineClassifier.LineType.unknown
    style := lineClassifier.LineStyle.solid
    thickness := 1
    confidence := 0
    length := 5
    angle := 1
    features :=
      { thickness := 1
        style := lineClassifier.LineStyle.solid
        intensity := 0.5
        straightness := 0.5
        continuity := 1
        parallelLines := 0
        perpendicularLines := 0
        nearbyText := true
        nearbySymbols := false
        junctionCount := 0
        cornerPoints := [] } }

/-- `annotLine5` as classified by the heuristics (and left untouched by the
context analysis of the two-line run below). -/
def annotLine5C : lineClassifier.Line :=
  { annotLine5 with
    type := lineClassifier.LineType.annotationLine
    confidence := 0.6 }

/-- `wallLine60` as classified by the heuristics. -/
def wallLine60C : lineClassifier.Line :=
  { wallLine60 with
    type := lineClassifier.LineType.wall
    confidence := 0.8 }

theorem classifyLinesCore_spec_witness :
    (0 ≤ annotLine5C.confidence ∧ annotLine5C.confidence ≤ 1)
    ∧ (lineClassifier.defaultClassificationOptions.confidenceThreshold
          ≤ annotLine5C.confidence →
        lineClassifier.defaultClassificationOptions.minLineLength
          ≤ annotLine5C.length →
        annotLine5C ∈ (lineClassifier.classifyLinesCore mathPI
          [wallLine60, annotLine5]
          lineClassifier.defaultClassificationOptions).lines)
    ∧ lineClassifier.defaultClassificationOptions.confidenceThreshold
        ≤ wallLine60C.confidence
    ∧ lineClassifier.defaultClassificationOptions.minLineLength
        ≤ wallLine60C.length :=
  classifyLinesCore_spec mathPI [wallLine60, annotLine5]
    lineClassifier.defaultClassificationOptions annotLine5C wallLine60C
    (by decide) (by decide)

/-- C4 counterexample: the final filter of `classifyLines` does not remove
"all and only" the lines with confidence below the threshold — `annotLine5`
is classified with confidence 0.6 ≥ 0.5 yet is removed from the result,
because the filter also discards lines shorter than `minLineLength`. -/
theorem classifyLinesCore_filter_counterexample :
    annotLine5C ∈ lineClassifier.applyContextAnalysis mathPI
      (lineClassifier.classifyWithHeuristics [wallLine60, annotLine5])
    ∧ lineClassifier.defaultClassificationOptions.confidenceThreshold
        ≤ annotLine5C.confidence
    ∧ annotLine5C ∉ (lineClassifier.classifyLinesCore mathPI
        [wallLine60, annotLine5]
        lineClassifier.defaultClassificationOptions).lines := by
  refine ⟨by decide, by decide, by decide⟩

namespace computerVision

/-- `toGrayscale` of computerVision.ts: the luminance
`0.299·R + 0.587·G + 0.114·B` of each pixel is written to its three colour
channels; the alpha channel is copied. -/
def toGrayscale (data : Buf) : Buf := fun i =>
  if i % 4 = 3 then data i
  else
    data (4 * (i / 4)) * 0.299 + data (4 * (i / 4) + 1) * 0.587
      + data (4 * (i / 4) + 2) * 0.114

/-- The `sobelX` kernel of `sobelEdgeDetection`. -/
def sobelX : List (List ℚ) := [[-1, 0, 1], [-2, 0, 2], [-1, 0, 1]]

/-- The `sobelY` kernel of `sobelEdgeDetection`. -/
def sobelY : List (List ℚ) := [[-1, -2, -1], [0, 0, 0], [1, 2, 1]]

/-- The (ky, kx) kernel loop of `sobelEdgeDetection`: both gradients
accumulated over the red channel of the 3×3 neighbourhood of (x, y)
(`ky = p.1 - 1`, `kx = p.2 - 1` relative to the source loop variables). -/
def sobelAt (data : Buf) (width x y : ℕ) : ℚ × ℚ :=
  ((List.range 3).flatMap fun ky => (List.range 3).map fun kx => (ky, kx)).foldl
    (fun g p =>
      let intensity := data (4 * ((y + p.1 - 1) * width + (x + p.2 - 1)))
      (g.1 + intensity * ((sobelX.getD p.1 []).getD p.2 0),
       g.2 + intensity * ((sobelY.getD p.1 []).getD p.2 0)))
    (0, 0)

/-- `sobelEdgeDetection` of computerVision.ts: interior pixels receive
`min 255 (sqrt (gx² + gy²))` in the three colour channels and 255 in alpha;
the zero-initialised output array is never written at border pixels. -/
def sobelEdgeDetection (sqrtQ : ℚ → ℚ) (data : Buf) (width height : ℕ) : Buf :=
  fun i =>
    if i < 4 * width * height then
      let p := i / 4
      let x := p % width
      let y := p / width
      if 1 ≤ x ∧ x + 1 < width ∧ 1 ≤ y ∧ y + 1 < height then
        if i % 4 = 3 then 255
        else
          let g := sobelAt data width x y
          min 255 (sqrtQ (g.1 * g.1 + g.2 * g.2))
      else 0
    else 0

/-- Spec-side formula (following §4.2 of the specification): the Gx Sobel
response at (x, y) as the explicit signed combination of the red channel of
the 3×3 neighbourhood. -/
def sobelGxSpec (data : Buf) (width x y : ℕ) : ℚ :=
  -data (4 * ((y - 1) * width + (x - 1))) + data (4 * ((y - 1) * width + (x + 1)))
    - 2 * data (4 * (y * width + (x - 1))) + 2 * data (4 * (y * width + (x + 1)))
    - data (4 * ((y + 1) * width + (x - 1))) + data (4 * ((y + 1) * width + (x + 1)))

/-- Spec-side formula for the Gy Sobel response. -/
def sobelGySpec (data : Buf) (width x y : ℕ) : ℚ :=
  -data (4 * ((y - 1) * width + (x - 1))) - 2 * data (4 * ((y - 1) * width + x))
    - data (4 * ((y - 1) * width + (x + 1))) + data (4 * ((y + 1) * width + (x - 1)))
    + 2 * data (4 * ((y + 1) * width + x)) + data (4 * ((y + 1) * width + (x + 1)))

end computerVision

/-- The kernel loop of the Sobel filter computes exactly the spec formulas. -/
theorem sobelAt_eq_spec (data : computerVision.Buf) (w x y : ℕ)
    (hx : 1 ≤ x) (hy : 1 ≤ y) :
    computerVision.sobelAt data w x y
      = (computerVision.sobelGxSpec data w x y,
         computerVision.sobelGySpec data w x y) := by
  have hoffs : ((List.range 3).flatMap fun ky => (List.range 3).map fun kx => (ky, kx))
      = [(0, 0), (0, 1), (0, 2), (1, 0), (1, 1), (1, 2), (2, 0), (2, 1), (2, 2)] := by
    decide
  unfold computerVision.sobelAt
  rw [hoffs]
  simp only [List.foldl_cons, List.foldl_nil, computerVision.sobelX,
    computerVision.sobelY, List.getD_cons_zero, List.getD_cons_succ]
  have e0 : ∀ a : ℕ, 1 ≤ a → a + 0 - 1 = a - 1 := fun a _ => by omega
  have e1 : ∀ a : ℕ, a + 1 - 1 = a := fun a => by omega
  have e2 : ∀ a : ℕ, 1 ≤ a → a + 2 - 1 = a + 1 := fun a _ => by omega
  rw [e0 x hx, e0 y hy, e1 x, e1 y, e2 x hx, e2 y hy]
  unfold computerVision.sobelGxSpec computerVision.sobelGySpec
  simp only [Prod.mk.injEq]
  constructor <;> ring

/-- C9: at every interior pixel (1 ≤ x < width−1, 1 ≤ y < height−1) and
colour channel, the Sobel output equals `min 255 (sqrt (Gx² + Gy²))` with
`Gx`, `Gy` the spec formulas over the red channel of the 3×3 neighbourhood;
every border pixel (first/last row or column) is left at zero in all four
channels. -/
theorem sobelEdgeDetection_spec (sqrtQ : ℚ → ℚ) (data : computerVision.Buf)
    (w h x y ch xb yb chb : ℕ) (hch : ch < 3)
    (hx1 : 1 ≤ x) (hx2 : x + 1 < w) (hy1 : 1 ≤ y) (hy2 : y + 1 < h)
    (hxb : xb < w) (hyb : yb < h) (hchb : chb < 4)
    (hborder : xb = 0 ∨ yb = 0 ∨ xb + 1 = w ∨ yb + 1 = h) :
    computerVision.sobelEdgeDetection sqrtQ data w h (4 * (y * w + x) + ch)
      = min 255 (sqrtQ (computerVision.sobelGxSpec data w x y ^ 2
          + computerVision.sobelGySpec data w x y ^ 2))
    ∧ computerVision.sobelEdgeDetection sqrtQ data w h (4 * (yb * w + xb) + chb)
      = 0 := by
  have harith : ∀ x' y' ch' : ℕ, x' < w → y' < h → ch' < 4 →
      (4 * (y' * w + x') + ch') < 4 * w * h
      ∧ (4 * (y' * w + x') + ch') / 4 = y' * w + x'
      ∧ (4 * (y' * w + x') + ch') % 4 = ch'
      ∧ (y' * w + x') % w = x' ∧ (y' * w + x') / w = y' := by
    intro x' y' ch' hxw hyh hc4
    have hw0 : 0 < w := by omega
    refine ⟨?_, ?_, ?_, ?_, ?_⟩
    · have h1 : y' * w + x' < (y' + 1) * w := by nlinarith
      have h2 : (y' + 1) * w ≤ h * w := by
        have : y' + 1 ≤ h := hyh
        nlinarith
      nlinarith
    · rw [Nat.mul_add_div (by norm_num)]
      omega
    · rw [Nat.mul_add_mod]
      omega
    · rw [add_comm, mul_comm y' w, Nat.add_mul_mod_self_left]
      exact Nat.mod_eq_of_lt hxw
    · rw [add_comm, Nat.add_mul_div_right _ _ hw0, Nat.div_eq_of_lt hxw]
      omega
  constructor
  · obtain ⟨hlt, hdiv, hmod, hmodw, hdivw⟩ :=
      harith x y ch (by omega) (by omega) (by omega)
    simp only [computerVision.sobelEdgeDetection]
    rw [if_pos hlt, hdiv, hmod, hmodw, hdivw]
    rw [if_pos ⟨hx1, hx2, hy1, hy2⟩, if_neg (by omega)]
    rw [sobelAt_eq_spec data w x y hx1 hy1]
    ring_nf
  · obtain ⟨hlt, hdiv, hmod, hmodw, hdivw⟩ := harith xb yb chb hxb hyb hchb
    simp only [computerVision.sobelEdgeDetection]
    rw [if_pos hlt, hdiv, hmodw, hdivw]
    rw [if_neg (by omega)]

/-- A concrete raster whose byte at index `i` reads `i` (arbitrary values
exercising the Sobel formula). -/
def sobelTestData : computerVision.Buf := fun i => i

theorem sobelEdgeDetection_spec_witness :
    computerVision.sobelEdgeDetection sqrtModel sobelTestData 3 3 (4 * (1 * 3 + 1) + 0)
      = min 255 (sqrtModel (computerVision.sobelGxSpec sobelTestData 3 1 1 ^ 2
          + computerVision.sobelGySpec sobelTestData 3 1 1 ^ 2))
    ∧ computerVision.sobelEdgeDetection sqrtModel sobelTestData 3 3 (4 * (2 * 3 + 0) + 3)
      = 0 :=
  sobelEdgeDetection_spec sqrtModel sobelTestData 3 3 1 1 0 0 2 3 (by decide)
    (by decide) (by decide) (by decide) (by decide) (by decide) (by decide)
    (by decide) (Or.inl rfl)

namespace computerVision

/-- Edge-clamped red-channel base byte index of the sample at (x, y): the
`Math.max(0, Math.min(width-1, ...))` clamping of the convolution loops. -/
def clampIdx (width height : ℕ) (x y : ℤ) : ℕ :=
  let px := max 0 (min ((width : ℤ) - 1) x)
  let py := max 0 (min ((height : ℤ) - 1) y)
  (py.toNat * width + px.toNat) * 4

/-- `generateGaussianKernel` of computerVision.ts: values
`exp (-(x² + y²) / (2σ²))` for x, y ∈ [-radius, radius], σ = radius/3,
normalised by the total sum.  `expQ` models `Math.exp`. -/
def generateGaussianKernel (expQ : ℚ → ℚ) (radius : ℕ) : List (List ℚ) :=
  let sigma : ℚ := (radius : ℚ) / 3
  let twoSigmaSquare := 2 * sigma * sigma
  let raw := (List.range (2 * radius + 1)).map fun j : ℕ =>
    (List.range (2 * radius + 1)).map fun i : ℕ =>
      expQ (-(((i : ℚ) - radius) ^ 2 + ((j : ℚ) - radius) ^ 2) / twoSigmaSquare)
  let total := (raw.map fun row => row.sum).sum
  raw.map fun row => row.map fun v => v / total

/-- `gaussianBlur` of computerVision.ts.  The source accumulates the four
channels and the weight sum in one pass over the (ky, kx) kernel window and
divides each channel by the weight sum; the per-byte function below computes
the same quotient channel-wise. -/
def gaussianBlur (expQ : ℚ → ℚ) (data : Buf) (width height radius : ℕ) : Buf :=
  fun i =>
    if i < 4 * width * height then
      let p := i / 4
      let ch := i % 4
      let x : ℤ := ((p % width : ℕ) : ℤ)
      let y : ℤ := ((p / width : ℕ) : ℤ)
      let kernel := generateGaussianKernel expQ radius
      let offs := (List.range (2 * radius + 1)).flatMap fun ky =>
        (List.range (2 * radius + 1)).map fun kx => (ky, kx)
      let wAt : ℕ × ℕ → ℚ := fun o => (kernel.getD o.1 []).getD o.2 0
      let acc := offs.foldl (fun a o =>
        a + data (clampIdx width height (x + o.2 - radius) (y + o.1 - radius) + ch)
          * wAt o) 0
      let wsum := offs.foldl (fun a o => a + wAt o) 0
      acc / wsum
    else 0

/-- `dilate` of computerVision.ts: per pixel the maximum red value of the
edge-clamped kernel window (written to the colour channels; alpha 255). -/
def dilate (data : Buf) (width height kernelSize : ℕ) : Buf := fun i =>
  if i < 4 * width * height then
    if i % 4 = 3 then 255
    else
      let p := i / 4
      let x : ℤ := ((p % width : ℕ) : ℤ)
      let y : ℤ := ((p / width : ℕ) : ℤ)
      let half := kernelSize / 2
      let offs := (List.range (2 * half + 1)).flatMap fun ky =>
        (List.range (2 * half + 1)).map fun kx => (ky, kx)
      offs.foldl (fun m o =>
        max m (data (clampIdx width height (x + o.2 - half) (y + o.1 - half)))) 0
  else 0

/-- `erode` of computerVision.ts (minimum, starting from 255). -/
def erode (data : Buf) (width height kernelSize : ℕ) : Buf := fun i =>
  if i < 4 * width * height then
    if i % 4 = 3 then 255
    else
      let p := i / 4
      let x : ℤ := ((p % width : ℕ) : ℤ)
      let y : ℤ := ((p / width : ℕ) : ℤ)
      let half := kernelSize / 2
      let offs := (List.range (2 * half + 1)).flatMap fun ky =>
        (List.range (2 * half + 1)).map fun kx => (ky, kx)
      offs.foldl (fun m o =>
        min m (data (clampIdx width height (x + o.2 - half) (y + o.1 - half)))) 255
  else 0

/-- `morphologicalClose` of computerVision.ts: dilation then erosion. -/
def morphologicalClose (data : Buf) (width height kernelSize : ℕ) : Buf :=
  erode (dilate data width height kernelSize) width height kernelSize

/-- The 8-connected neighbour directions of `traceContour`, in source order
(each entry is (dx, dy)). -/
def traceDirections : List (ℤ × ℤ) :=
  [(-1, -1), (-1, 0), (-1, 1), (0, -1), (0, 1), (1, -1), (1, 0), (1, 1)]

/-- The neighbours `traceContour` pushes from (x, y): in bounds, unvisited,
and brighter than the threshold (checked before pushing). -/
def traceNeighbors (data : Buf) (width height : ℕ) (threshold : ℚ)
    (visited : ℕ) (x y : ℕ) : List (ℕ × ℕ) :=
  traceDirections.filterMap fun d =>
    let nx := (x : ℤ) + d.1
    let ny := (y : ℤ) + d.2
    if 0 ≤ nx ∧ nx < (width : ℤ) ∧ 0 ≤ ny ∧ ny < (height : ℤ)
        ∧ ¬ vget visited width nx.toNat ny.toNat
        ∧ data (4 * (ny.toNat * width + nx.toNat)) > threshold then
      some (nx.toNat, ny.toNat)
    else none

/-- Loop body of `traceContour` of computerVision.ts: 8-connected tracing of
bright pixels with the source caps (stack ≤ 10000, contour ≤ 5000); the
contour is accumulated in reverse and reversed on return, and `slen`/`clen`
mirror the O(1) JS `.length` reads. -/
def traceContourGo (data : Buf) (width height : ℕ) (threshold : ℚ) :
    ℕ → List (ℕ × ℕ) → ℕ → List Point → ℕ → ℕ → List Point × ℕ
  | _, [], _, revContour, _, visited => (revContour.reverse, visited)
  | 0, _ :: _, _, revContour, _, visited => (revContour.reverse, visited)
  | fuel + 1, (x, y) :: rest, slen, revContour, clen, visited =>
    if slen > 10000 ∨ clen > 5000 then (revContour.reverse, visited)
    else if width ≤ x ∨ height ≤ y ∨ vget visited width x y then
      traceContourGo data width height threshold fuel rest (slen - 1)
        revContour clen visited
    else if data (4 * (y * width + x)) ≤ threshold then
      traceContourGo data width height threshold fuel rest (slen - 1)
        revContour clen visited
    else
      let visited' := vset visited width x y
      let pushed := traceNeighbors data width height threshold visited' x y
      traceContourGo data width height threshold fuel (pushed.reverse ++ rest)
        (slen - 1 + pushed.length) ((⟨(x : ℚ), (y : ℚ)⟩ : Point) :: revContour)
        (clen + 1) visited'

/-- `traceContour` of computerVision.ts (coordinates are natural numbers:
the source pre-checks bounds before pushing, so the x<0/y<0 pop checks never
fire). -/
def traceContour (data : Buf) (width height startX startY : ℕ) (threshold : ℚ)
    (visited : ℕ) : List Point × ℕ :=
  traceContourGo data width height threshold (8 * width * height + 5)
    [(startX, startY)] 1 [] 0 visited

/-- One sampled grid cell of the `findContours` scan (stride 8); the
`contours.length < 100` loop guard of the source is checked per cell. -/
def findContoursStep (data : Buf) (width height : ℕ) (threshold : ℚ)
    (st : ℕ × List (List Point)) (x y : ℕ) : ℕ × List (List Point) :=
  if st.2.length < 100 ∧ data (4 * (y * width + x)) > threshold
      ∧ ¬ vget st.1 width x y then
    let tr := traceContour data width height x y threshold st.1
    if 20 < tr.1.length ∧ tr.1.length < 3000 then (tr.2, st.2 ++ [tr.1])
    else (tr.2, st.2)
  else st

/-- `findContours` of computerVision.ts. -/
def findContours (data : Buf) (width height : ℕ) (threshold : ℚ) :
    List (List Point) :=
  let ys := (List.range ((height + 7) / 8)).map fun i => 8 * i
  let xs := (List.range ((width + 7) / 8)).map fun i => 8 * i
  (ys.foldl
    (fun st y => xs.foldl (fun st x => findContoursStep data width height threshold st x y) st)
    (0, [])).2

/-- `ProcessingResult` of computerVision.ts. -/
structure ProcessingResult where
  rooms : List Room
  walls : List (List (ℚ × ℚ))
  doors : List Point
  windows : List Point
  confidence : ℚ
deriving DecidableEq

/-- `generateFallbackRooms` of computerVision.ts: the fixed two-room layout
returned when room detection finds nothing (or on the error path). -/
def generateFallbackRooms : List Room :=
  [{ id := "room1", name := "Living Room", color := "#e3f2fd",
     vertices := [(-50, -30), (50, -30), (50, 30), (-50, 30)],
     center := (0, 0), area := none, type := none },
   { id := "room2", name := "Kitchen", color := "#f3e5f5",
     vertices := [(50, -30), (100, -30), (100, 10), (50, 10)],
     center := (75, -10), area := none, type := none }]

/-- `generateFallbackWalls` of computerVision.ts. -/
def generateFallbackWalls : List (List (ℚ × ℚ)) :=
  [[(-50, -30), (50, -30)], [(50, -30), (100, -30)], [(100, -30), (100, 10)],
   [(100, 10), (50, 10)], [(50, 10), (50, 30)], [(-50, 30), (-50, -30)]]

/-- `calculateConfidence` of computerVision.ts. -/
def calculateConfidence (rooms : List Room) (walls : List Wall) : ℚ :=
  min 1 ((if rooms.length > 0 then 0.5 else 0)
    + (if walls.length > 0 then 0.3 else 0)
    + (if rooms.length > 2 then 0.1 else 0)
    + (if walls.length > 4 then 0.1 else 0))

/-- The pure computational core of `processFloorPlan` of computerVision.ts
on its success path, for rasters within the 800px bound (the oversize branch
delegates rescaling to the canvas, an external facility; the catch-all error
path, which returns the fallbacks with confidence 0.3, is unreachable in the
total model).  Returns `none` only if the Douglas-Peucker fuel runs out. -/
def processFloorPlan (expQ sqrtQ : ℚ → ℚ) (at2 : ℚ → ℚ → ℚ) (fuel : ℕ)
    (data : Buf) (width height : ℕ) : Option ProcessingResult :=
  let blurred := gaussianBlur expQ data width height 2
  let grayscale := toGrayscale blurred
  let edges := sobelEdgeDetection sqrtQ grayscale width height
  let cleaned := morphologicalClose edges width height 3
  let contours := findContours cleaned width height 128
  (detectWalls sqrtQ at2 fuel contours).map fun walls =>
    let rooms := detectRooms grayscale width height
    let wallSegments := walls.map fun wall =>
      [((wall.start.x - width / 2) * 0.5, (wall.start.y - height / 2) * 0.5),
       ((wall.endP.x - width / 2) * 0.5, (wall.endP.y - height / 2) * 0.5)]
    { rooms := if rooms.length > 0 then rooms else generateFallbackRooms
      walls := if wallSegments.length > 0 then wallSegments else generateFallbackWalls
      doors := []
      windows := []
      confidence := calculateConfidence rooms walls }

end computerVision

/-- getD of a map over a range, in bounds. -/
theorem getD_map_range {α : Type} (n : ℕ) (g : ℕ → α) (d : α) (j : ℕ) (hj : j < n) :
    ((List.range n).map g).getD j d = g j := by
  rw [List.getD_eq_getElem _ _ (by simpa using hj)]
  simp

/-- Every entry of the normalised Gaussian kernel is positive whenever the
exponential model is positive (true of `Math.exp`). -/
theorem generateGaussianKernel_pos (expQ : ℚ → ℚ) (hexp : ∀ q, 0 < expQ q)
    (radius j i : ℕ) (hj : j < 2 * radius + 1) (hi : i < 2 * radius + 1) :
    0 < ((computerVision.generateGaussianKernel expQ radius).getD j []).getD i 0 := by
  simp only [computerVision.generateGaussianKernel]
  rw [List.map_map, getD_map_range _ _ _ j hj]
  simp only [Function.comp_apply]
  rw [List.map_map, getD_map_range _ _ _ i hi]
  simp only [Function.comp_apply]
  apply div_pos (hexp _)
  apply List.sum_pos
  · intro s hs
    simp only [List.mem_map, List.mem_range] at hs
    obtain ⟨jj, hjj, rfl⟩ := hs
    obtain ⟨a, ha, rfl⟩ := hjj
    apply List.sum_pos
    · intro v hv
      simp only [List.mem_map, List.mem_range] at hv
      obtain ⟨ii, hii, rfl⟩ := hv
      exact hexp _
    · intro hnil
      have hlen := congrArg List.length hnil
      simp only [List.length_map, List.length_range, List.length_nil] at hlen
      omega
  · intro hnil
    have hlen := congrArg List.length hnil
    simp only [List.length_map, List.length_range, List.length_nil] at hlen
    omega

/-- The clamped sample index plus a channel offset stays inside the raster. -/
theorem clampIdx_add_lt (width height ch : ℕ) (x y : ℤ)
    (hw : 0 < width) (hh : 0 < height) (hch : ch < 4) :
    computerVision.clampIdx width height x y + ch < 4 * width * height := by
  simp only [computerVision.clampIdx]
  have hpx : (max 0 (min ((width : ℤ) - 1) x)).toNat < width := by omega
  have hpy : (max 0 (min ((height : ℤ) - 1) y)).toNat < height := by omega
  have h3 : ((max 0 (min ((height : ℤ) - 1) y)).toNat + 1) * width ≤ height * width :=
    Nat.mul_le_mul_right width (by omega)
  rw [add_mul, one_mul] at h3
  have h4 : 4 * width * height = height * width * 4 := by ring
  rw [h4]
  generalize (max 0 (min ((height : ℤ) - 1) y)).toNat * width = A at h3 ⊢
  generalize height * width = B at h3 ⊢
  omega

/-- Left fold of additions equals the initial value plus a mapped sum. -/
theorem foldl_add_sum {α : Type} (l : List α) (g : α → ℚ) (init : ℚ) :
    l.foldl (fun a o => a + g o) init = init + (l.map g).sum := by
  induction l generalizing init with
  | nil => simp
  | cons a l ih => simp [List.foldl_cons, ih, add_assoc]

/-- Mapped sum of a constant left multiple. -/
theorem sum_map_mul_left_q {α : Type} (l : List α) (g : α → ℚ) (c : ℚ) :
    (l.map fun o => c * g o).sum = c * (l.map g).sum := by
  induction l with
  | nil => simp
  | cons a l ih => simp [ih, mul_add]

/-- The all-white 6×6 RGBA raster: 144 bytes of 255 (off-raster reads 0,
matching the typed-array convention of the embedding). -/
def allWhite6 : computerVision.Buf := fun i => if i < 144 then 255 else 0

/-- Gaussian blur leaves the all-white 6×6 raster unchanged for every
positive exponential model (true of `Math.exp`): each clamped sample reads
255, so every output byte is (255·W)/W = 255. -/
theorem gaussianBlur_allWhite (expQ : ℚ → ℚ) (hexp : ∀ q, 0 < expQ q) :
    computerVision.gaussianBlur expQ allWhite6 6 6 2 = allWhite6 := by
  funext i
  simp only [computerVision.gaussianBlur]
  by_cases hi : i < 4 * 6 * 6
  case neg =>
    rw [if_neg hi]
    unfold allWhite6
    rw [if_neg (by omega)]
  case pos =>
    rw [if_pos hi]
    have hread : ∀ x y : ℤ,
        allWhite6 (computerVision.clampIdx 6 6 x y + i % 4) = 255 := by
      intro x y
      unfold allWhite6
      rw [if_pos]
      have := clampIdx_add_lt 6 6 (i % 4) x y (by norm_num) (by norm_num)
        (Nat.mod_lt i (by norm_num))
      omega
    simp only [hread]
    rw [foldl_add_sum, foldl_add_sum, zero_add, zero_add, sum_map_mul_left_q]
    have hS : 0 < (((List.range (2 * 2 + 1)).flatMap fun ky =>
        (List.range (2 * 2 + 1)).map fun kx => (ky, kx)).map fun o =>
          ((computerVision.generateGaussianKernel expQ 2).getD o.1 []).getD o.2 0).sum := by
      apply List.sum_pos
      · intro v hv
        simp only [List.mem_map, List.mem_flatMap, List.mem_range] at hv
        obtain ⟨o, ⟨ky, hky, kx, hkx, rfl⟩, rfl⟩ := hv
        exact generateGaussianKernel_pos expQ hexp 2 ky kx hky hkx
      · exact List.ne_nil_of_mem
          (List.mem_map_of_mem _ (show ((0, 0) : ℕ × ℕ) ∈ _ by decide))
    rw [mul_div_assoc, div_self (ne_of_gt hS), mul_one]
    unfold allWhite6
    rw [if_pos (by omega)]

/-- Constant-1 stand-in for `Math.exp`; positive everywhere like the true
exponential, and exact on no-op uses of the kernel (the kernel normalises
away any constant). -/
def expUniform (_q : ℚ) : ℚ := 1

/-- C1 (amended): on the all-white 6×6 raster the pipeline detects 0 rooms
(the single uniform flood fill of 36 pixels is below the 1000-pixel
acceptance bound), and the returned success-path result is the fixed
TWO-room fallback set (`generateFallbackRooms`) with the six fallback wall
segments and overall confidence 0 — not a 4-room set, and not confidence
0.3, which the source assigns only on the catch path.  Holds for every
positive exponential model (true of `Math.exp`) and every simplification
fuel. -/
theorem processFloorPlan_allWhite (expQ : ℚ → ℚ) (fuel : ℕ)
    (hexp : ∀ q, 0 < expQ q) :
    computerVision.processFloorPlan expQ sqrtModel atanZero fuel allWhite6 6 6
      = some ⟨computerVision.generateFallbackRooms,
          computerVision.generateFallbackWalls, [], [], 0⟩
    ∧ computerVision.detectRooms (computerVision.toGrayscale
        (computerVision.gaussianBlur expQ allWhite6 6 6 2)) 6 6 = [] := by
  have hblur := gaussianBlur_allWhite expQ hexp
  constructor
  · simp only [computerVision.processFloorPlan, hblur]
    have hcont : computerVision.findContours
        (computerVision.morphologicalClose
          (computerVision.sobelEdgeDetection sqrtModel
            (computerVision.toGrayscale allWhite6) 6 6) 6 6 3) 6 6 128 = [] := by
      decide
    rw [hcont]
    simp only [computerVision.detectWalls, Option.map_some']
    decide
  · rw [hblur]
    decide

/-- C1 counterexample: at the concrete all-white 6×6 raster (with the
constant positive exponential stand-in, which the normalised kernel cancels
exactly) the pipeline's result has confidence 0 and 2 fallback rooms —
refuting the claimed confidence 0.3 and 4-room fallback set. -/
theorem processFloorPlan_allWhite_counterexample :
    Option.map (fun r => (r.confidence, r.rooms.length))
      (computerVision.processFloorPlan expUniform sqrtModel atanZero 40 allWhite6 6 6)
      = some ((0 : ℚ), (2 : ℕ))
    ∧ (0 : ℚ) ≠ 0.3 ∧ (2 : ℕ) ≠ 4 := by
  refine ⟨?_, by norm_num, by norm_num⟩
  have hblur := gaussianBlur_allWhite expUniform (fun q => by norm_num [expUniform])
  simp only [computerVision.processFloorPlan, hblur]
  have hcont : computerVision.findContours
      (computerVision.morphologicalClose
        (computerVision.sobelEdgeDetection sqrtModel
          (computerVision.toGrayscale allWhite6) 6 6) 6 6 3) 6 6 128 = [] := by
    decide
  rw [hcont]
  simp only [computerVision.detectWalls, Option.map_some']
  decide

/-- Witness for the amended C1 theorem at the constant positive exponential
stand-in and fuel 7. -/
theorem processFloorPlan_allWhite_witness :
    computerVision.processFloorPlan expUniform sqrtModel atanZero 7 allWhite6 6 6
      = some ⟨computerVision.generateFallbackRooms,
          computerVision.generateFallbackWalls, [], [], 0⟩
    ∧ computerVision.detectRooms (computerVision.toGrayscale
        (computerVision.gaussianBlur expUniform allWhite6 6 6 2)) 6 6 = [] :=
  processFloorPlan_allWhite expUniform 7 (fun q => by norm_num [expUniform])

namespace textFilterEngine

/-- `ImageData` as used by textFilterEngine.ts: dimensions plus the byte
buffer. -/
structure Image where
  width : ℕ
  height : ℕ
  data : ℕ → ℚ

/-- `BoundingBox` of textFilterEngine.ts. -/
structure BoundingBox where
  x : ℚ
  y : ℚ
  width : ℚ
  height : ℚ
deriving DecidableEq

/-- `TextRegion` of textFilterEngine.ts.  The source field `isAnnotation`
is rendered `isAnnotationFlag` here (the original spelling is not a legal
name in this development); all other fields keep their source names. -/
structure TextRegion where
  id : String
  text : String
  confidence : ℚ
  bbox : BoundingBox
  fontSize : ℚ
  rotation : ℚ
  isAnnotationFlag : Bool
  isDimension : Bool
  isLabel : Bool
deriving DecidableEq

/-- `FilterResult` of textFilterEngine.ts.  `processingTime` is wall-clock
(`Date.now()`), an external effect outside the model. -/
structure FilterResult where
  cleanedImage : Image
  textRegions : List TextRegion
  maskImage : Image
  confidence : ℚ

/-- `FilterOptions` of textFilterEngine.ts. -/
structure FilterOptions where
  enableOCR : Bool
  removeText : Bool
  preserveDimensions : Bool
  minConfidence : ℚ
  languageHints : List String
  debugMode : Bool

/-- The defaults `filterText` merges under the caller's partial options. -/
def defaultFilterOptions : FilterOptions :=
  ⟨true, true, false, 30, ["eng"], false⟩

/-- A raw OCR word as produced by `ocrWorker.recognize`. -/
structure OcrBBox where
  x0 : ℚ
  y0 : ℚ
  x1 : ℚ
  y1 : ℚ

/-- One recognised word of the OCR result. -/
structure OcrWord where
  text : String
  confidence : ℚ
  bbox : OcrBBox

/-- External OCR state and effects of the engine: the `isInitialized` flag,
whether `ocrWorker` is non-null, the outcome of the awaited
`createWorker`/`setParameters` calls, and the outcome of
`ocrWorker.recognize` (a rejected promise is an error). -/
structure OcrEnv where
  isInitialized : Bool
  hasWorker : Bool
  createWorkerResult : Except String Unit
  recognize : Image → Except String (List OcrWord)

/-- The three regex text classifiers (`isAnnotationText`,
`isDimensionText`, `isLabelText`); passed as parameters, the theorems hold
for every classifier behaviour. -/
structure TextClassifiers where
  isAnnotationText : String → Bool
  isDimensionText : String → Bool
  isLabelText : String → Bool

/-- The pure image helpers of the engine (`preprocessForOCR` with its
contrast/median steps, `createTextMask`, `removeTextFromImage`,
`detectTextHeuristically`).  Each constructs fresh buffers from its inputs
and never throws; they are passed as parameters and the theorems hold for
every such helper. -/
structure PureHelpers where
  preprocessForOCR : Image → Image
  createTextMask : Image → List TextRegion → Image
  removeTextFromImage : Image → List TextRegion → FilterOptions → Image
  detectTextHeuristically : Image → FilterOptions → List TextRegion

/-- `estimateFontSize` of textFilterEngine.ts. -/
def estimateFontSize (height : ℚ) : ℚ := max 8 (min 72 (height * 0.8))

/-- The word loop of `detectTextRegions`: words below `minConfidence` are
skipped, the rest become `TextRegion`s with ids `text_0`, `text_1`, … -/
def wordsToRegions (cls : TextClassifiers) (minConfidence : ℚ)
    (words : List OcrWord) : List TextRegion :=
  (words.foldl (fun (st : ℕ × List TextRegion) w =>
    if w.confidence < minConfidence then st
    else (st.1 + 1, st.2 ++ [{
      id := "text_" ++ natToStr st.1
      text := w.text
      confidence := w.confidence
      bbox := ⟨w.bbox.x0, w.bbox.y0, w.bbox.x1 - w.bbox.x0, w.bbox.y1 - w.bbox.y0⟩
      fontSize := estimateFontSize (w.bbox.y1 - w.bbox.y0)
      rotation := 0
      isAnnotationFlag := cls.isAnnotationText w.text
      isDimension := cls.isDimensionText w.text
      isLabel := cls.isLabelText w.text }])) (0, [])).2

/-- `detectTextRegions` of textFilterEngine.ts: throws when `ocrWorker` is
null; its inner try/catch turns any OCR failure into an empty region
list. -/
def detectTextRegions (env : OcrEnv) (cls : TextClassifiers) (img : Image)
    (opts : FilterOptions) : Except String (List TextRegion) :=
  if ¬ env.hasWorker then .error "OCR worker not initialized"
  else match env.recognize img with
    | .error _ => .ok []
    | .ok words => .ok (wordsToRegions cls opts.minConfidence words)

/-- `initialize` of textFilterEngine.ts: early return when already
initialised; otherwise the awaited `createWorker`/`setParameters` outcome
either yields the initialised state or is rethrown as
`'OCR initialization failed'`. -/
def initRun (env : OcrEnv) : Except String OcrEnv :=
  if env.isInitialized then .ok env
  else match env.createWorkerResult with
    | .ok _ => .ok { env with hasWorker := true, isInitialized := true }
    | .error _ => .error "OCR initialization failed"

/-- `calculateOverallConfidence` of textFilterEngine.ts: 0 for no regions,
else the average confidence scaled to [0, 1]. -/
def calculateOverallConfidence (regions : List TextRegion) : ℚ :=
  if regions.length = 0 then 0
  else ((regions.map fun r => r.confidence).sum / regions.length) / 100

/-- `new ImageData(w, h)`: a zero-initialised (fully transparent) image. -/
def blankImage (w h : ℕ) : Image := ⟨w, h, fun _ => 0⟩

/-- The try body of `filterText` (with merged options): conditional OCR
initialisation, preprocessing, region detection (OCR or heuristic), mask
creation, conditional text removal, and the final record. -/
def tryFilterText (env : OcrEnv) (cls : TextClassifiers) (hp : PureHelpers)
    (img : Image) (opts : FilterOptions) : Except String FilterResult := do
  let env' ← if opts.enableOCR ∧ ¬ env.isInitialized then initRun env else .ok env
  let pre := hp.preprocessForOCR img
  let regions ← if opts.enableOCR then detectTextRegions env' cls pre opts
    else .ok (hp.detectTextHeuristically pre opts)
  let mask := hp.createTextMask img regions
  let cleaned := if opts.removeText then hp.removeTextFromImage img regions opts
    else img
  .ok ⟨cleaned, regions, mask, calculateOverallConfidence regions⟩

/-- `filterText` of textFilterEngine.ts: the try body's result, or — when
any step throws — the catch-path record built from the untouched input. -/
def filterText (env : OcrEnv) (cls : TextClassifiers) (hp : PureHelpers)
    (img : Image) (opts : FilterOptions) : FilterResult :=
  match tryFilterText env cls hp img opts with
  | .ok r => r
  | .error _ => ⟨img, [], blankImage img.width img.height, 0⟩

end textFilterEngine

/-- C10: whenever any step of `filterText`'s try body throws — OCR
initialisation, the null-worker check, or any other step — the returned
result is exactly the catch-path record: the `cleanedImage` is the
unmodified input image itself, `textRegions` is empty, the mask is a fresh
blank image, and the confidence is 0.  This holds for every OCR
environment, classifier set, pure helper set, input image and (merged)
option record. -/
theorem filterText_error_fallback (env : textFilterEngine.OcrEnv)
    (cls : textFilterEngine.TextClassifiers) (hp : textFilterEngine.PureHelpers)
    (img : textFilterEngine.Image) (opts : textFilterEngine.FilterOptions)
    (e : String)
    (h : textFilterEngine.tryFilterText env cls hp img opts = .error e) :
    textFilterEngine.filterText env cls hp img opts
      = ⟨img, [], textFilterEngine.blankImage img.width img.height, 0⟩ := by
  unfold textFilterEngine.filterText
  rw [h]

/-- Witness for C10: an uninitialised engine whose `createWorker` call
fails makes the try body throw `'OCR initialization failed'`, and the
result is the catch-path record around the unmodified input. -/
theorem filterText_error_fallback_witness :
    textFilterEngine.filterText
        ⟨false, false, .error "createWorker failed", fun _ => .ok []⟩
        ⟨fun _ => false, fun _ => false, fun _ => false⟩
        ⟨id, fun _ _ => textFilterEngine.blankImage 0 0, fun i _ _ => i, fun _ _ => []⟩
        ⟨2, 2, fun _ => 255⟩ textFilterEngine.defaultFilterOptions
      = ⟨⟨2, 2, fun _ => 255⟩, [], textFilterEngine.blankImage 2 2, 0⟩ :=
  filterText_error_fallback
    ⟨false, false, .error "createWorker failed", fun _ => .ok []⟩
    ⟨fun _ => false, fun _ => false, fun _ => false⟩
    ⟨id, fun _ _ => textFilterEngine.blankImage 0 0, fun i _ _ => i, fun _ _ => []⟩
    ⟨2, 2, fun _ => 255⟩ textFilterEngine.defaultFilterOptions
    "OCR initialization failed" rfl

namespace universalProcessor

/-- `ProcessingOptions` of universalProcessor.ts (the merged options; the
progress callback is an external effect outside the model). -/
structure ProcessingOptions where
  enableTextFiltering : Bool
  enableLineClassification : Bool
  enableOCR : Bool
  preserveDimensions : Bool
  autoDetectScale : Bool
  generatePreview : Bool
  debugMode : Bool

/-- `ProcessingStage` of universalProcessor.ts (`duration` is wall clock,
outside the model; `status` is one of pending/processing/completed/error). -/
structure ProcessingStage where
  name : String
  description : String
  progress : ℚ
  status : String
  error : Option String
deriving DecidableEq

/-- `ProcessingInput` of universalProcessor.ts, for the string-data case
(`input.data.slice(0, 100)` keys the cache; a `File` input is keyed by its
name instead). -/
structure ProcessingInput where
  dataStr : String
  format : String

/-- `initializeStages` of universalProcessor.ts: three base stages, with
`text_filtering` spliced at 1, `line_classification` at 2 (or 1 without
text filtering), and `preview_generation` appended. -/
def initializeStages (options : ProcessingOptions) : List ProcessingStage :=
  let stages : List ProcessingStage :=
    [⟨"blueprint_analysis", "Analyzing blueprint type and format", 0, "pending", none⟩,
     ⟨"structure_generation", "Generating 3D structure from blueprint", 0, "pending", none⟩,
     ⟨"quality_assessment", "Assessing result quality", 0, "pending", none⟩]
  let stages := if options.enableTextFiltering then
      stages.insertIdx 1
        ⟨"text_filtering", "Detecting and filtering text elements", 0, "pending", none⟩
    else stages
  let stages := if options.enableLineClassification then
      stages.insertIdx (if options.enableTextFiltering then 2 else 1)
        ⟨"line_classification", "Classifying structural lines", 0, "pending", none⟩
    else stages
  if options.generatePreview then
    stages ++ [⟨"preview_generation", "Generating preview images", 0, "pending", none⟩]
  else stages

/-- `generateCacheKey` of universalProcessor.ts: base64 of the first 100
characters of the input data concatenated with the JSON of the options,
truncated to 32 characters.  `btoaF` and `strOpts` model the external
`btoa` and `JSON.stringify`. -/
def generateCacheKey (btoaF : String → String)
    (strOpts : ProcessingOptions → String) (input : ProcessingInput)
    (options : ProcessingOptions) : String :=
  (btoaF ((input.dataStr.take 100) ++ strOpts options)).take 32

/-- The external effects of `process`: the engine-initialisation outcome,
the truthiness of `result.blueprintAnalysis.processedImage` (deciding
whether text filtering runs), and each stage body as a payload transformer
that either succeeds or throws — carrying the partially mutated payload,
since a JS stage body mutates `result` in place before throwing.  `R` is
the payload of the result record apart from `stages` and `errors`. -/
structure ProcEnv (R : Type) where
  isInitialized : Bool
  initResult : Except String Unit
  hasProcessedImage : R → Bool
  stageEffect : String → R → Except (String × R) R
  initPayload : R

/-- `ProcessedBlueprint` as returned by `process`: the abstract payload
plus the stage list (aliased by the source record) and the errors pushed by
the catch handler. -/
structure ProcessedBlueprint (R : Type) where
  payload : R
  stages : List ProcessingStage
  errors : List String

/-- Intermediate state of the try body: current payload, current stage
list, and the number of stage bodies executed so far. -/
structure ProcState (R : Type) where
  result : R
  stages : List ProcessingStage
  execCount : ℕ

/-- `executeStage` of universalProcessor.ts: a missing stage name is
silently skipped; otherwise the body runs and the stage is marked
completed (progress 100) or error, the error being rethrown. -/
def runStage {R : Type} (env : ProcEnv R) (stageName : String)
    (st : ProcState R) : ProcState R × Option String :=
  if ¬ (st.stages.any fun s => s.name = stageName) then (st, none)
  else match env.stageEffect stageName st.result with
    | .ok r' =>
      (⟨r', st.stages.map fun s => if s.name = stageName then
          { s with status := "completed", progress := 100 } else s,
        st.execCount + 1⟩, none)
    | .error (e, rPartial) =>
      (⟨rPartial, st.stages.map fun s => if s.name = stageName then
          { s with status := "error", error := some e } else s,
        st.execCount + 1⟩, some e)

/-- One conditional step of the try body: skipped when a previous stage
already threw or when its guard (on the current payload) is false. -/
def runIf {R : Type} (env : ProcEnv R) (cond : R → Bool) (stageName : String) :
    ProcState R × Option String → ProcState R × Option String
  | (st, some e) => (st, some e)
  | (st, none) => if cond st.result then runStage env stageName st else (st, none)

/-- The stage sequence of `process`'s try body, in source order with the
source guards. -/
def tryBody {R : Type} (env : ProcEnv R) (opts : ProcessingOptions)
    (st0 : ProcState R) : ProcState R × Option String :=
  runIf env (fun _ => opts.generatePreview) "preview_generation"
    (runIf env (fun _ => true) "quality_assessment"
      (runIf env (fun _ => true) "structure_generation"
        (runIf env (fun _ => opts.enableLineClassification) "line_classification"
          (runIf env (fun r => opts.enableTextFiltering && env.hasProcessedImage r)
            "text_filtering"
            (runIf env (fun _ => true) "blueprint_analysis" (st0, none))))))

/-- JS `Map.get` over the association-list model of the cache. -/
def cacheLookup {R : Type} (cache : List (String × ProcessedBlueprint R))
    (key : String) : Option (ProcessedBlueprint R) :=
  (cache.find? fun p => p.1 = key).map fun p => p.2

/-- `process` of universalProcessor.ts: early cache-hit return; otherwise
conditional engine initialisation and the staged try body, with
`cache.set(cacheKey, result)` only after every stage has succeeded, and the
catch path returning the partial result — with the error pushed — WITHOUT
caching.  The third component counts executed stage bodies. -/
def process {R : Type} (env : ProcEnv R) (btoaF : String → String)
    (strOpts : ProcessingOptions → String) (input : ProcessingInput)
    (opts : ProcessingOptions) (cache : List (String × ProcessedBlueprint R)) :
    ProcessedBlueprint R × List (String × ProcessedBlueprint R) × ℕ :=
  let stages := initializeStages opts
  let key := generateCacheKey btoaF strOpts input opts
  match cacheLookup cache key with
  | some cached => (cached, cache, 0)
  | none =>
    match (if env.isInitialized then Except.ok () else env.initResult) with
    | .error e => (⟨env.initPayload, stages, [e]⟩, cache, 0)
    | .ok _ =>
      match tryBody env opts ⟨env.initPayload, stages, 0⟩ with
      | (st, none) =>
        (⟨st.result, st.stages, []⟩,
         (key, ⟨st.result, st.stages, []⟩) :: cache, st.execCount)
      | (st, some e) => (⟨st.result, st.stages, [e]⟩, cache, st.execCount)

end universalProcessor

/-- C8: caching of `process` results.  (1) A call whose key is present in
the cache returns the previously computed result as-is, leaves the cache
unchanged, and executes zero stage bodies.  (2) On a cache miss, if every
stage of the try body succeeds, the result is returned AND stored in the
cache under the computed key.  (3) On a cache miss, if any stage throws,
the error-path result (error pushed, failing stage marked) is returned and
the cache is left unchanged — so a result is stored if and only if the run
completes successfully. -/
theorem process_cache_spec {R : Type} (env : universalProcessor.ProcEnv R)
    (btoaF : String → String)
    (strOpts : universalProcessor.ProcessingOptions → String)
    (input : universalProcessor.ProcessingInput)
    (opts : universalProcessor.ProcessingOptions)
    (cache : List (String × universalProcessor.ProcessedBlueprint R))
    (st : universalProcessor.ProcState R) (e : String) :
    (∀ r, universalProcessor.cacheLookup cache
        (universalProcessor.generateCacheKey btoaF strOpts input opts) = some r →
      universalProcessor.process env btoaF strOpts input opts cache = (r, cache, 0))
    ∧ (universalProcessor.cacheLookup cache
        (universalProcessor.generateCacheKey btoaF strOpts input opts) = none →
       env.isInitialized = true →
       universalProcessor.tryBody env opts
         ⟨env.initPayload, universalProcessor.initializeStages opts, 0⟩ = (st, none) →
       universalProcessor.process env btoaF strOpts input opts cache
        = (⟨st.result, st.stages, []⟩,
           (universalProcessor.generateCacheKey btoaF strOpts input opts,
            ⟨st.result, st.stages, []⟩) :: cache,
           st.execCount))
    ∧ (universalProcessor.cacheLookup cache
        (universalProcessor.generateCacheKey btoaF strOpts input opts) = none →
       env.isInitialized = true →
       universalProcessor.tryBody env opts
         ⟨env.initPayload, universalProcessor.initializeStages opts, 0⟩ = (st, some e) →
       universalProcessor.process env btoaF strOpts input opts cache
        = (⟨st.result, st.stages, [e]⟩, cache, st.execCount)) := by
  refine ⟨?_, ?_, ?_⟩
  · intro r h
    simp only [universalProcessor.process, h]
  · intro h1 h2 h3
    simp only [universalProcessor.process, h1, h2, if_true, h3]
  · intro h1 h2 h3
    simp only [universalProcessor.process, h1, h2, if_true, h3]

/-- All-succeeding stage environment over a counter payload: each stage
body increments the payload. -/
def env0 : universalProcessor.ProcEnv ℕ :=
  ⟨true, .ok (), fun _ => true, fun _ r => .ok (r + 1), 0⟩

/-- Fully enabled option set. -/
def opts0 : universalProcessor.ProcessingOptions :=
  ⟨true, true, true, false, true, true, false⟩

/-- The state after the try body of a cache-miss run of `env0`. -/
def st0 : universalProcessor.ProcState ℕ :=
  (universalProcessor.tryBody env0 opts0
    ⟨0, universalProcessor.initializeStages opts0, 0⟩).1

/-- Witness for C8: a cache-miss run with every stage succeeding stores the
result in the cache under the computed key. -/
theorem process_cache_spec_witness :
    universalProcessor.process env0 id (fun _ => "opts") ⟨"abc", "png"⟩ opts0 []
      = (⟨st0.result, st0.stages, []⟩,
         [(universalProcessor.generateCacheKey id (fun _ => "opts") ⟨"abc", "png"⟩ opts0,
           ⟨st0.result, st0.stages, []⟩)], st0.execCount) :=
  ((process_cache_spec env0 id (fun _ => "opts") ⟨"abc", "png"⟩ opts0 [] st0 "").2.1)
    rfl rfl rfl
